import Mathlib

/-!
Verification of the lonpos solver: a shallow embedding of the geometry
engine, the board model and the backtracking search of
`lonpos_solver/__init__.py`, together with theorems settling the frozen
claims about the specification.

Conventions of the embedding:
* numpy arrays of coordinates become lists of integer pairs or triples;
* the board (a numpy `uint8` grid) becomes a row-major flat `List Nat`
  together with its shape: cell (x, y) of a 2D board of shape
  (shape0, shape1) lives at flat index `x * shape1 + y`, and cell
  (x, y, z) of a 3D board of shape (shape0, shape1, shape2) lives at
  `(x * shape1 + y) * shape2 + z`.  Cell values: 0 is empty, 255 is
  blocked (the uint8 value of -1), and 1..N is the piece index;
* Python exceptions (assert failures, ValueError, TypeError) become an
  error value returned next to the state reached at the point the
  exception is raised;
* the lazy `solutions` generator becomes a fuel-indexed function that
  returns the whole list of yielded grids and the final state, or the
  error the generator run would raise.
-/

/-- A piece, as in the source dataclass: a name, a display color that is
irrelevant to solving, and its cell offsets in a reference orientation. -/
structure Piece where
  name : String
  color : String
  definition : List (ℤ × ℤ)
deriving DecidableEq, Repr

/-- The global twelve-piece catalog `PIECES` of the source. -/
def PIECES : List Piece := [
  ⟨"A", "orange",     [(0, 0), (1, 0), (1, 1), (1, 2)]⟩,
  ⟨"B", "red",        [(0, 0), (0, 1), (1, 0), (1, 1), (1, 2)]⟩,
  ⟨"C", "blue",       [(0, 0), (1, 0), (1, 1), (1, 2), (1, 3)]⟩,
  ⟨"D", "pink",       [(0, 0), (1, 0), (1, 1), (1, 2), (1, -1)]⟩,
  ⟨"E", "green",      [(0, 0), (0, 1), (1, 1), (1, 2), (1, 3)]⟩,
  ⟨"F", "whitesmoke", [(0, 0), (1, 0), (1, 1)]⟩,
  ⟨"G", "cyan",       [(0, 0), (1, 0), (2, 0), (2, 1), (2, 2)]⟩,
  ⟨"H", "magenta",    [(0, 0), (1, 0), (1, 1), (2, 1), (2, 2)]⟩,
  ⟨"I", "yellow",     [(0, 0), (0, 1), (1, 0), (2, 0), (2, 1)]⟩,
  ⟨"J", "darkviolet", [(0, 0), (0, 1), (0, 2), (0, 3)]⟩,
  ⟨"K", "lime",       [(0, 0), (0, 1), (1, 0), (1, 1)]⟩,
  ⟨"L", "gray",       [(0, 0), (1, 0), (1, 1), (1, -1), (2, 0)]⟩]

/-- Lexicographic order on integer pairs: the order Python uses to sort
2D coordinate tuples in `normalized_tuple`. -/
def tupLe (a b : ℤ × ℤ) : Prop :=
  a.1 < b.1 ∨ (a.1 = b.1 ∧ a.2 ≤ b.2)

instance : DecidableRel tupLe := fun a b =>
  inferInstanceAs (Decidable (a.1 < b.1 ∨ (a.1 = b.1 ∧ a.2 ≤ b.2)))

instance : IsTotal (ℤ × ℤ) tupLe where
  total a b := by unfold tupLe; omega

instance : IsTrans (ℤ × ℤ) tupLe where
  trans a b c := by unfold tupLe; omega

instance : IsAntisymm (ℤ × ℤ) tupLe where
  antisymm a b := by
    unfold tupLe
    intro h1 h2
    have hx : a.1 = b.1 := by omega
    have hy : a.2 = b.2 := by omega
    exact Prod.ext hx hy

/-- `normalized_tuple`: the canonicalized (sorted) version of a set of 2D
coordinates, used by the source as a hashable canonical form. -/
def normalized_tuple (coords : List (ℤ × ℤ)) : List (ℤ × ℤ) :=
  List.insertionSort tupLe coords

/-- The rotation by 90 degrees of the source, acting on a row vector:
(x, y) @ [[0, -1], [1, 0]] = (y, -x). -/
def rot90pt (p : ℤ × ℤ) : ℤ × ℤ := (p.2, -p.1)

/-- The reflection of the source, acting on a row vector:
(x, y) @ [[-1, 0], [0, 1]] = (-x, y). -/
def flippt (p : ℤ × ℤ) : ℤ × ℤ := (-p.1, p.2)

/-- The eight coordinate lists the nested loops of
`all_2d_rotations_and_translations` run through: four rotation states,
then the flip of the fourth rotation state (the original) followed by
its four rotation states. -/
def dihedral_variants (coords : List (ℤ × ℤ)) : List (List (ℤ × ℤ)) :=
  let r := fun c : List (ℤ × ℤ) => c.map rot90pt
  let f := fun c : List (ℤ × ℤ) => c.map flippt
  [coords, r coords, r (r coords), r (r (r coords)),
   f coords, r (f coords), r (r (f coords)), r (r (r (f coords)))]

/-- `all_2d_rotations_and_translations`: all displacements of a piece
which contain (0, 0).  For each rotation/reflection state and each of its
own cells the candidate re-anchored at that cell is collected; the
candidates are de-duplicated through their canonical sorted form. -/
def all_2d_rotations_and_translations (definition : List (ℤ × ℤ)) :
    List (List (ℤ × ℤ)) :=
  let xy := (dihedral_variants definition).flatMap fun coords =>
    coords.map fun offset => coords.map fun p => p - offset
  (xy.map normalized_tuple).dedup

/-- The state of a `Lonpos2D` object: the board grid (row-major flat
list plus its shape) and the list of names of the remaining pieces. -/
structure Lonpos2DState where
  shape0 : Nat
  shape1 : Nat
  board : List Nat
  remaining_pieces : List String
deriving DecidableEq, Repr

/-- Flat index of cell (x, y) in the row-major grid. -/
def flatIdx2 (s : Lonpos2DState) (x y : ℤ) : Nat :=
  x.toNat * s.shape1 + y.toNat

/-- The value of board cell (x, y); meaningful for in-bounds coordinates,
which is the only way the modeled operations read the grid. -/
def cell2 (s : Lonpos2DState) (x y : ℤ) : Nat :=
  s.board.getD (flatIdx2 s x y) 0

/-- `Lonpos2D.in_bounds`. -/
def in_bounds2 (s : Lonpos2DState) (x y : ℤ) : Bool :=
  decide (0 ≤ x) && decide (x < (s.shape0 : ℤ)) &&
  decide (0 ≤ y) && decide (y < (s.shape1 : ℤ))

/-- `Lonpos2D.completed`: the remaining-pieces list is empty and no cell
of the grid holds 0. -/
def completed2 (s : Lonpos2DState) : Bool :=
  s.remaining_pieces.isEmpty && s.board.all fun v => v ≠ 0

/-- The scan enumeration of all grid cells, x ascending and, within an
x, y ascending: the comprehension order shared by `next_pos` and the
numpy nonzero order used by `get_xy`. -/
def grid2 (s : Lonpos2DState) : List (ℤ × ℤ) :=
  (List.range s.shape0).flatMap fun x =>
    (List.range s.shape1).map fun (y : Nat) => ((x : ℤ), (y : ℤ))

/-- The list `empty` built by `Lonpos2D.next_pos`: all currently empty
cells in scan order. -/
def empty2 (s : Lonpos2DState) : List (ℤ × ℤ) :=
  (grid2 s).filter fun p => cell2 s p.1 p.2 = 0

/-- The neighbor offsets of `Lonpos2D.next_pos`. -/
def offsets2 : List (ℤ × ℤ) := [(1, 0), (0, 1), (-1, 0), (0, -1)]

/-- The count of empty in-bounds 4-connected neighbors of a cell, as
computed inside the scan loop of `Lonpos2D.next_pos` against the list of
empty cells. -/
def num_neighbors2 (s : Lonpos2DState) (emptyL : List (ℤ × ℤ))
    (p : ℤ × ℤ) : Nat :=
  ((offsets2.map fun o => (p.1 + o.1, p.2 + o.2)).filter
    (fun n => in_bounds2 s n.1 n.2)).countP fun n => decide (n ∈ emptyL)

/-- The scan loop of `Lonpos2D.next_pos`: return the first cell with 0
or 1 empty neighbors; remember the first cell with exactly 2 empty
neighbors as the fallback candidate. -/
def next_pos2_loop (s : Lonpos2DState) (emptyL : List (ℤ × ℤ)) :
    List (ℤ × ℤ) → Option (ℤ × ℤ) → Option (ℤ × ℤ)
  | [], candidate => candidate
  | p :: rest, candidate =>
    let nn := num_neighbors2 s emptyL p
    if nn = 0 ∨ nn = 1 then some p
    else if candidate = none ∧ nn = 2 then
      next_pos2_loop s emptyL rest (some p)
    else next_pos2_loop s emptyL rest candidate

/-- `Lonpos2D.next_pos`. -/
def next_pos2 (s : Lonpos2DState) : Option (ℤ × ℤ) :=
  next_pos2_loop s (empty2 s) (empty2 s) none

/-- `Lonpos2D.can_place`: every coordinate in bounds and every addressed
cell empty. -/
def can_place2 (s : Lonpos2DState) (xy : List (ℤ × ℤ)) : Bool :=
  xy.all (fun p => in_bounds2 s p.1 p.2) &&
  xy.all fun p => cell2 s p.1 p.2 = 0

/-- `Lonpos2D._place`: write `index` into every cell of `xy`. -/
def _place2 (s : Lonpos2DState) (xy : List (ℤ × ℤ)) (index : Nat) :
    Lonpos2DState :=
  { s with board := xy.foldl (fun b p => b.set (flatIdx2 s p.1 p.2) index) s.board }

/-- `Lonpos2D.place`.  The three assert statements of the source are
modeled as early returns carrying the error message and the untouched
state; `xy - xy[0]` on an empty array is the IndexError of `xy[0]`.
`orientations` maps a piece index to its precomputed orientation list
and `piece_idx` maps a piece name to its index. -/
def place2 (orientations : Nat → List (List (ℤ × ℤ)))
    (piece_idx : String → Nat) (s : Lonpos2DState) (name : String)
    (xy : List (ℤ × ℤ)) : Lonpos2DState × Option String :=
  if name ∈ s.remaining_pieces then
    let index := piece_idx name
    match xy with
    | [] => (s, some "IndexError")
    | p0 :: _ =>
      if normalized_tuple (xy.map fun p => p - p0) ∈
          (orientations index).map normalized_tuple then
        if can_place2 s xy then
          ({ _place2 s xy index with
              remaining_pieces := s.remaining_pieces.erase name }, none)
        else (s, some "cannot place")
      else (s, some "not a valid orientation")
  else (s, some "piece not available")

/-- `Lonpos2D.get_xy`: the coordinates holding `index`, in the row-major
order of numpy nonzero.  The empty result corresponds to the ValueError
of the source. -/
def get_xy (s : Lonpos2DState) (index : Nat) : List (ℤ × ℤ) :=
  (grid2 s).filter fun p => cell2 s p.1 p.2 = index

/-- `Lonpos2D.unplace`: for each name in turn, locate its cells (raising
if it is not on the board), reset them to empty and re-append the name
to the remaining pieces.  The state reached when an error is raised is
returned next to the error. -/
def unplace2 (piece_idx : String → Nat) (s : Lonpos2DState) :
    List String → Lonpos2DState × Option String
  | [] => (s, none)
  | name :: rest =>
    let xy := get_xy s (piece_idx name)
    if xy = [] then (s, some "not on the board")
    else unplace2 piece_idx
      { _place2 s xy 0 with
          remaining_pieces := s.remaining_pieces ++ [name] } rest

/-- The solutions generator of `Lonpos2D`, with explicit fuel bounding
the recursion depth.  The result is the list of yielded grids plus the
state the generator leaves behind, or the error raised during the run.
Translating an orientation by the scalar `pos` when `pos` is none is the
TypeError numpy raises for `array + None`. -/
def typeErrorMsg : String := "TypeError: unsupported operand int and NoneType"

instance {ε α : Type} [DecidableEq ε] [DecidableEq α] :
    DecidableEq (Except ε α) := fun a b =>
  match a, b with
  | .error e1, .error e2 =>
    if h : e1 = e2 then isTrue (by rw [h])
    else isFalse fun hc => h (Except.error.inj hc)
  | .ok v1, .ok v2 =>
    if h : v1 = v2 then isTrue (by rw [h])
    else isFalse fun hc => h (Except.ok.inj hc)
  | .error _, .ok _ => isFalse fun hc => Except.noConfusion hc
  | .ok _, .error _ => isFalse fun hc => Except.noConfusion hc

def orientLoop2 (sol : Lonpos2DState → Except String (List (List Nat) × Lonpos2DState))
    (index : Nat) (name : String) :
    List (List (ℤ × ℤ)) → Option (ℤ × ℤ) → Lonpos2DState →
    Except String (List (List Nat) × Lonpos2DState)
  | [], _, s => .ok ([], s)
  | xy0 :: restOrs, pos, s =>
    match pos with
    | none => .error typeErrorMsg
    | some p =>
      let xy := xy0.map fun q => (q.1 + p.1, q.2 + p.2)
      if can_place2 s xy then
        match sol { _place2 s xy index with
            remaining_pieces := s.remaining_pieces.erase name } with
        | .error e => .error e
        | .ok (ys1, s2) =>
          match orientLoop2 sol index name restOrs pos
              { _place2 s2 xy 0 with
                  remaining_pieces := s2.remaining_pieces ++ [name] } with
          | .error e => .error e
          | .ok (ys2, s4) => .ok (ys1 ++ ys2, s4)
      else orientLoop2 sol index name restOrs pos s

def nameLoop2 (sol : Lonpos2DState → Except String (List (List Nat) × Lonpos2DState))
    (orientations : Nat → List (List (ℤ × ℤ))) (piece_idx : String → Nat) :
    List String → Option (ℤ × ℤ) → Lonpos2DState →
    Except String (List (List Nat) × Lonpos2DState)
  | [], _, s => .ok ([], s)
  | name :: rest, pos, s =>
    match orientLoop2 sol (piece_idx name) name
        (orientations (piece_idx name)) pos s with
    | .error e => .error e
    | .ok (ys1, s1) =>
      match nameLoop2 sol orientations piece_idx rest pos s1 with
      | .error e => .error e
      | .ok (ys2, s2) => .ok (ys1 ++ ys2, s2)

def solutions2 (orientations : Nat → List (List (ℤ × ℤ)))
    (piece_idx : String → Nat) :
    Nat → Lonpos2DState → Except String (List (List Nat) × Lonpos2DState)
  | 0, _ => .error "out of fuel"
  | fuel + 1, s =>
    if s.remaining_pieces.isEmpty then .ok ([s.board], s)
    else nameLoop2 (solutions2 orientations piece_idx fuel) orientations
      piece_idx s.remaining_pieces (next_pos2 s) s

/-- The orientation table a `Lonpos2D` object computes at construction:
piece index i + 1 maps to the orientations of `PIECES[i]`. -/
def orientations2D : Nat → List (List (ℤ × ℤ)) := fun i =>
  all_2d_rotations_and_translations ((PIECES.getD (i - 1) ⟨"", "", []⟩).definition)

/-- The name-to-index map a `Lonpos2D` object computes at construction. -/
def piece_idx2D : String → Nat := fun name =>
  (PIECES.findIdx fun p => p.name = name) + 1

/-! ## The 3D solver -/

/-- The flat-plane embedding of `all_3d_rotations_and_translations`:
(x, y) @ [[1, 0, 0], [0, 1, 0]] = (x, y, 0). -/
def flat3pt (p : ℤ × ℤ) : ℤ × ℤ × ℤ := (p.1, p.2, 0)

/-- The first slanted-plane embedding:
(x, y) @ [[0, -1, 1], [-1, 0, 1]] = (-y, -x, x + y). -/
def slant1pt (p : ℤ × ℤ) : ℤ × ℤ × ℤ := (-p.2, -p.1, p.1 + p.2)

/-- The second slanted-plane embedding:
(x, y) @ [[0, 0, 1], [-1, -1, 1]] = (-y, -y, x + y). -/
def slant2pt (p : ℤ × ℤ) : ℤ × ℤ × ℤ := (-p.2, -p.2, p.1 + p.2)

/-- `all_3d_rotations_and_translations`: the 2D orientation set embedded
into the flat plane and the two slanted planes, concatenated without any
further de-duplication. -/
def all_3d_rotations_and_translations (definition : List (ℤ × ℤ)) :
    List (List (ℤ × ℤ × ℤ)) :=
  let result_2d := all_2d_rotations_and_translations definition
  (result_2d.map fun xy => xy.map flat3pt) ++
  ((result_2d.map fun xy => xy.map slant1pt) ++
   (result_2d.map fun xy => xy.map slant2pt))

/-- The state of a `Lonpos3D` object. -/
structure Lonpos3DState where
  shape0 : Nat
  shape1 : Nat
  shape2 : Nat
  board : List Nat
  remaining_pieces : List String
deriving DecidableEq, Repr

/-- Flat index of cell (x, y, z) in the row-major grid. -/
def flatIdx3 (s : Lonpos3DState) (x y z : ℤ) : Nat :=
  (x.toNat * s.shape1 + y.toNat) * s.shape2 + z.toNat

/-- The value of board cell (x, y, z). -/
def cell3 (s : Lonpos3DState) (x y z : ℤ) : Nat :=
  s.board.getD (flatIdx3 s x y z) 0

/-- `Lonpos3D.in_bounds`. -/
def in_bounds3 (s : Lonpos3DState) (x y z : ℤ) : Bool :=
  decide (0 ≤ x) && decide (x < (s.shape0 : ℤ)) &&
  decide (0 ≤ y) && decide (y < (s.shape1 : ℤ)) &&
  decide (0 ≤ z) && decide (z < (s.shape2 : ℤ))

/-- `Lonpos3D.completed`. -/
def completed3 (s : Lonpos3DState) : Bool :=
  s.remaining_pieces.isEmpty && s.board.all fun v => v ≠ 0

/-- The list `empty` built by `Lonpos3D.next_pos`: all currently empty
cells, scanned with x ascending, y ascending and z descending (within a
column the top layer comes first). -/
def empty3 (s : Lonpos3DState) : List (ℤ × ℤ × ℤ) :=
  ((List.range s.shape0).flatMap fun x =>
    (List.range s.shape1).flatMap fun y =>
      (List.range s.shape2).reverse.map fun (z : Nat) =>
        ((x : ℤ), (y : ℤ), (z : ℤ))).filter
      fun p => cell3 s p.1 p.2.1 p.2.2 = 0

/-- The twelve neighbor offsets of `Lonpos3D.next_pos`. -/
def offsets3 : List (ℤ × ℤ × ℤ) :=
  [(1, 0, 0), (0, 1, 0), (-1, 0, 0), (0, -1, 0),
   (-1, -1, 1), (-1, 0, 1), (0, -1, 1), (0, 0, 1),
   (-1, -1, -1), (-1, 0, -1), (0, -1, -1), (0, 0, -1)]

/-- The count of empty in-bounds 12-connected neighbors of a cell, as
computed inside the scan loop of `Lonpos3D.next_pos`. -/
def num_neighbors3 (s : Lonpos3DState) (emptyL : List (ℤ × ℤ × ℤ))
    (p : ℤ × ℤ × ℤ) : Nat :=
  ((offsets3.map fun o => (p.1 + o.1, p.2.1 + o.2.1, p.2.2 + o.2.2)).filter
    (fun n => in_bounds3 s n.1 n.2.1 n.2.2)).countP fun n => decide (n ∈ emptyL)

/-- The scan loop of `Lonpos3D.next_pos`, carrying `candidate` and
`candidate_neighbors` exactly like the source: return the first cell
with 0, 1 or 2 empty neighbors; otherwise remember the cell with the
strictly smallest neighbor count seen so far. -/
def next_pos3_loop (s : Lonpos3DState) (emptyL : List (ℤ × ℤ × ℤ)) :
    List (ℤ × ℤ × ℤ) → Option (ℤ × ℤ × ℤ) → Nat → Option (ℤ × ℤ × ℤ)
  | [], candidate, _ => candidate
  | p :: rest, candidate, cn =>
    let nn := num_neighbors3 s emptyL p
    if nn = 0 ∨ nn = 1 ∨ nn = 2 then some p
    else if candidate = none ∨ nn < cn then
      next_pos3_loop s emptyL rest (some p) nn
    else next_pos3_loop s emptyL rest candidate cn

/-- `Lonpos3D.next_pos`, with `candidate_neighbors` starting at 12. -/
def next_pos3 (s : Lonpos3DState) : Option (ℤ × ℤ × ℤ) :=
  next_pos3_loop s (empty3 s) (empty3 s) none 12

/-- `Lonpos3D.can_place`. -/
def can_place3 (s : Lonpos3DState) (xyz : List (ℤ × ℤ × ℤ)) : Bool :=
  xyz.all (fun p => in_bounds3 s p.1 p.2.1 p.2.2) &&
  xyz.all fun p => cell3 s p.1 p.2.1 p.2.2 = 0

/-- `Lonpos3D._place`. -/
def _place3 (s : Lonpos3DState) (xyz : List (ℤ × ℤ × ℤ)) (index : Nat) :
    Lonpos3DState :=
  { s with board :=
      xyz.foldl (fun b p => b.set (flatIdx3 s p.1 p.2.1 p.2.2) index) s.board }

def orientLoop3 (sol : Lonpos3DState → Except String (List (List Nat) × Lonpos3DState))
    (index : Nat) (name : String) :
    List (List (ℤ × ℤ × ℤ)) → Option (ℤ × ℤ × ℤ) → Lonpos3DState →
    Except String (List (List Nat) × Lonpos3DState)
  | [], _, s => .ok ([], s)
  | xyz0 :: restOrs, pos, s =>
    match pos with
    | none => .error typeErrorMsg
    | some p =>
      let xyz := xyz0.map fun q => (q.1 + p.1, q.2.1 + p.2.1, q.2.2 + p.2.2)
      if can_place3 s xyz then
        match sol { _place3 s xyz index with
            remaining_pieces := s.remaining_pieces.erase name } with
        | .error e => .error e
        | .ok (ys1, s2) =>
          match orientLoop3 sol index name restOrs pos
              { _place3 s2 xyz 0 with
                  remaining_pieces := s2.remaining_pieces ++ [name] } with
          | .error e => .error e
          | .ok (ys2, s4) => .ok (ys1 ++ ys2, s4)
      else orientLoop3 sol index name restOrs pos s

def nameLoop3 (sol : Lonpos3DState → Except String (List (List Nat) × Lonpos3DState))
    (orientations : Nat → List (List (ℤ × ℤ × ℤ))) (piece_idx : String → Nat) :
    List String → Option (ℤ × ℤ × ℤ) → Lonpos3DState →
    Except String (List (List Nat) × Lonpos3DState)
  | [], _, s => .ok ([], s)
  | name :: rest, pos, s =>
    match orientLoop3 sol (piece_idx name) name
        (orientations (piece_idx name)) pos s with
    | .error e => .error e
    | .ok (ys1, s1) =>
      match nameLoop3 sol orientations piece_idx rest pos s1 with
      | .error e => .error e
      | .ok (ys2, s2) => .ok (ys1 ++ ys2, s2)

def solutions3 (orientations : Nat → List (List (ℤ × ℤ × ℤ)))
    (piece_idx : String → Nat) :
    Nat → Lonpos3DState → Except String (List (List Nat) × Lonpos3DState)
  | 0, _ => .error "out of fuel"
  | fuel + 1, s =>
    if s.remaining_pieces.isEmpty then .ok ([s.board], s)
    else nameLoop3 (solutions3 orientations piece_idx fuel) orientations
      piece_idx s.remaining_pieces (next_pos3 s) s

/-- The orientation table a `Lonpos3D` object computes at construction. -/
def orientations3D : Nat → List (List (ℤ × ℤ × ℤ)) := fun i =>
  all_3d_rotations_and_translations ((PIECES.getD (i - 1) ⟨"", "", []⟩).definition)

/-! ## Lemmas about the canonical form and the 2D orientation set -/

lemma nt_perm (l : List (ℤ × ℤ)) : (normalized_tuple l).Perm l :=
  List.perm_insertionSort tupLe l

lemma nt_sorted (l : List (ℤ × ℤ)) : List.Sorted tupLe (normalized_tuple l) :=
  List.sorted_insertionSort tupLe l

lemma nt_toFinset (l : List (ℤ × ℤ)) :
    (normalized_tuple l).toFinset = l.toFinset := by
  ext a
  simp [List.mem_toFinset, (nt_perm l).mem_iff]

lemma nt_length (l : List (ℤ × ℤ)) :
    (normalized_tuple l).length = l.length :=
  (nt_perm l).length_eq

lemma nt_mem {a : ℤ × ℤ} {l : List (ℤ × ℤ)} :
    a ∈ normalized_tuple l ↔ a ∈ l :=
  (nt_perm l).mem_iff

lemma nt_nodup {l : List (ℤ × ℤ)} (h : l.Nodup) :
    (normalized_tuple l).Nodup :=
  ((nt_perm l).nodup_iff).mpr h

/-- Two lists without duplicates that are equal as unordered sets have
the same canonical sorted form. -/
lemma nt_eq_of_toFinset_eq {l1 l2 : List (ℤ × ℤ)} (h1 : l1.Nodup)
    (h2 : l2.Nodup) (h : l1.toFinset = l2.toFinset) :
    normalized_tuple l1 = normalized_tuple l2 :=
  List.eq_of_perm_of_sorted
    ((nt_perm l1).trans
      ((List.perm_of_nodup_nodup_toFinset_eq h1 h2 h).trans (nt_perm l2).symm))
    (nt_sorted l1) (nt_sorted l2)

lemma rot90pt_injective : Function.Injective rot90pt := by
  intro a b h
  simp only [rot90pt, Prod.mk.injEq] at h
  exact Prod.ext (by omega) (by omega)

lemma flippt_injective : Function.Injective flippt := by
  intro a b h
  simp only [flippt, Prod.mk.injEq] at h
  exact Prod.ext (by omega) (by omega)

/-- Every rotation/reflection state of the source loops is the image of
the definition under an injective point map. -/
lemma dihedral_variants_spec (definition : List (ℤ × ℤ)) :
    ∀ V ∈ dihedral_variants definition,
      ∃ g : (ℤ × ℤ) → (ℤ × ℤ), Function.Injective g ∧ V = definition.map g := by
  intro V hV
  simp only [dihedral_variants, List.mem_cons, List.not_mem_nil, or_false] at hV
  rcases hV with rfl | rfl | rfl | rfl | rfl | rfl | rfl | rfl
  · exact ⟨id, fun a b h => h, (List.map_id _).symm⟩
  · exact ⟨rot90pt, rot90pt_injective, rfl⟩
  · exact ⟨rot90pt ∘ rot90pt, rot90pt_injective.comp rot90pt_injective,
      by simp [List.map_map]⟩
  · exact ⟨rot90pt ∘ rot90pt ∘ rot90pt,
      rot90pt_injective.comp (rot90pt_injective.comp rot90pt_injective),
      by simp [List.map_map]⟩
  · exact ⟨flippt, flippt_injective, rfl⟩
  · exact ⟨rot90pt ∘ flippt, rot90pt_injective.comp flippt_injective,
      by simp [List.map_map]⟩
  · exact ⟨rot90pt ∘ rot90pt ∘ flippt,
      rot90pt_injective.comp (rot90pt_injective.comp flippt_injective),
      by simp [List.map_map]⟩
  · exact ⟨rot90pt ∘ rot90pt ∘ rot90pt ∘ flippt,
      rot90pt_injective.comp
        (rot90pt_injective.comp (rot90pt_injective.comp flippt_injective)),
      by simp [List.map_map]⟩

/-- Membership in the 2D orientation list, unfolded. -/
lemma mem_all2d {definition : List (ℤ × ℤ)} {o : List (ℤ × ℤ)} :
    o ∈ all_2d_rotations_and_translations definition ↔
      ∃ coords ∈ dihedral_variants definition, ∃ offset ∈ coords,
        o = normalized_tuple (coords.map fun p => p - offset) := by
  simp only [all_2d_rotations_and_translations, List.mem_dedup, List.mem_map,
    List.mem_flatMap]
  constructor
  · rintro ⟨c, ⟨coords, hcoords, offset, hoffset, rfl⟩, rfl⟩
    exact ⟨coords, hcoords, offset, hoffset, rfl⟩
  · rintro ⟨coords, hcoords, offset, hoffset, rfl⟩
    exact ⟨coords.map fun p => p - offset,
      ⟨coords, hcoords, offset, hoffset, rfl⟩, rfl⟩

/-- Every member of the 2D orientation list is the canonical form of a
candidate that contains the origin, has the length of the definition,
and, when the definition has no duplicate offsets, no duplicates. -/
lemma all2d_elem_spec {definition : List (ℤ × ℤ)} {o : List (ℤ × ℤ)}
    (ho : o ∈ all_2d_rotations_and_translations definition) :
    ∃ c : List (ℤ × ℤ), o = normalized_tuple c ∧
      ((0 : ℤ), (0 : ℤ)) ∈ c ∧ c.length = definition.length ∧
      (definition.Nodup → c.Nodup) := by
  obtain ⟨coords, hcoords, offset, hoffset, rfl⟩ := mem_all2d.mp ho
  obtain ⟨g, hg, rfl⟩ := dihedral_variants_spec definition coords hcoords
  refine ⟨(definition.map g).map fun p => p - offset, rfl, ?_, by simp, ?_⟩
  · have : offset - offset ∈ (definition.map g).map fun p => p - offset :=
      List.mem_map_of_mem _ hoffset
    simpa using this
  · intro hnd
    exact ((hnd.map hg).map (sub_left_injective))

lemma all2d_origin {definition : List (ℤ × ℤ)} {o : List (ℤ × ℤ)}
    (ho : o ∈ all_2d_rotations_and_translations definition) :
    ((0 : ℤ), (0 : ℤ)) ∈ o := by
  obtain ⟨c, rfl, h0, -, -⟩ := all2d_elem_spec ho
  exact nt_mem.mpr h0

lemma all2d_length {definition : List (ℤ × ℤ)} {o : List (ℤ × ℤ)}
    (ho : o ∈ all_2d_rotations_and_translations definition) :
    o.length = definition.length := by
  obtain ⟨c, rfl, -, hlen, -⟩ := all2d_elem_spec ho
  rw [nt_length, hlen]

/-- On a duplicate-free definition, two members of the 2D orientation
list that are equal as unordered sets are equal as lists. -/
lemma all2d_eq_of_toFinset_eq {definition : List (ℤ × ℤ)}
    (hnd : definition.Nodup) {o1 o2 : List (ℤ × ℤ)}
    (h1 : o1 ∈ all_2d_rotations_and_translations definition)
    (h2 : o2 ∈ all_2d_rotations_and_translations definition)
    (h : o1.toFinset = o2.toFinset) : o1 = o2 := by
  obtain ⟨c1, rfl, -, -, hnd1⟩ := all2d_elem_spec h1
  obtain ⟨c2, rfl, -, -, hnd2⟩ := all2d_elem_spec h2
  rw [nt_toFinset, nt_toFinset] at h
  exact nt_eq_of_toFinset_eq (hnd1 hnd) (hnd2 hnd) h

/-- On a duplicate-free definition, the 2D orientation list holds no two
orientations that are equal as unordered coordinate sets. -/
lemma all2d_pairwise_setNe {definition : List (ℤ × ℤ)}
    (hnd : definition.Nodup) :
    (all_2d_rotations_and_translations definition).Pairwise
      fun o1 o2 => o1.toFinset ≠ o2.toFinset := by
  have hdd : (all_2d_rotations_and_translations definition).Nodup := by
    unfold all_2d_rotations_and_translations
    exact List.nodup_dedup _
  refine hdd.imp_of_mem ?_
  intro o1 o2 m1 m2 hne hset
  exact hne (all2d_eq_of_toFinset_eq hnd m1 m2 hset)

/-! ## Lemmas about the 3D orientation set -/

set_option maxRecDepth 10000

lemma toFinset_map_list {α β : Type} [DecidableEq α] [DecidableEq β]
    (f : α → β) (l : List α) : (l.map f).toFinset = l.toFinset.image f := by
  ext b
  simp [List.mem_toFinset, List.mem_map, Finset.mem_image]

lemma map_toFinset_inj {α β : Type} [DecidableEq α] [DecidableEq β]
    {f : α → β} (hf : Function.Injective f) {l1 l2 : List α}
    (h : (l1.map f).toFinset = (l2.map f).toFinset) :
    l1.toFinset = l2.toFinset := by
  rw [toFinset_map_list, toFinset_map_list] at h
  exact Finset.image_injective hf h

lemma flat3pt_injective : Function.Injective flat3pt := by
  intro a b h
  simp only [flat3pt, Prod.mk.injEq] at h
  exact Prod.ext (by omega) (by omega)

lemma slant1pt_injective : Function.Injective slant1pt := by
  intro a b h
  simp only [slant1pt, Prod.mk.injEq] at h
  exact Prod.ext (by omega) (by omega)

lemma slant2pt_injective : Function.Injective slant2pt := by
  intro a b h
  simp only [slant2pt, Prod.mk.injEq] at h
  exact Prod.ext (by omega) (by omega)

/-- The twelve catalog definitions are non-empty and duplicate-free. -/
lemma pieces_defs_ok : ∀ p ∈ PIECES, p.definition ≠ [] ∧ p.definition.Nodup := by
  decide

/-- No 2D orientation of a catalog piece lies entirely on the line
x + y = 0, nor entirely on the line x = y: these are the geometric facts
that keep the three plane embeddings apart. -/
lemma pieces_cross_plane : ∀ p ∈ PIECES,
    ∀ o ∈ all_2d_rotations_and_translations p.definition,
      (∃ c ∈ o, c.1 + c.2 ≠ 0) ∧ ∃ c ∈ o, c.1 ≠ c.2 := by
  decide

/-- Within one plane embedding, set-distinct 2D orientations stay
set-distinct. -/
lemma all3d_plane_pairwise {definition : List (ℤ × ℤ)}
    (hnd : definition.Nodup) {f : (ℤ × ℤ) → ℤ × ℤ × ℤ}
    (hf : Function.Injective f) :
    ((all_2d_rotations_and_translations definition).map (List.map f)).Pairwise
      fun o1 o2 => o1.toFinset ≠ o2.toFinset := by
  rw [List.pairwise_map]
  refine (all2d_pairwise_setNe hnd).imp ?_
  intro o1 o2 hne h
  exact hne (map_toFinset_inj hf h)

/-- A flat-plane image never equals a slanted-plane image as a set,
because the slanted image of an orientation holding a cell off the line
x + y = 0 holds a point with nonzero third coordinate. -/
lemma flat_ne_slant {o1 o2 : List (ℤ × ℤ)}
    {g : (ℤ × ℤ) → ℤ × ℤ × ℤ} (hg : ∀ c, (g c).2.2 = c.1 + c.2)
    (hsum : ∃ c ∈ o2, c.1 + c.2 ≠ 0) :
    (o1.map flat3pt).toFinset ≠ (o2.map g).toFinset := by
  intro h
  obtain ⟨c, hc, hcs⟩ := hsum
  have h1 : g c ∈ (o2.map g).toFinset := by
    rw [List.mem_toFinset]
    exact List.mem_map_of_mem g hc
  rw [← h, List.mem_toFinset, List.mem_map] at h1
  obtain ⟨d, -, hde⟩ := h1
  have h3 := congrArg (fun q : ℤ × ℤ × ℤ => q.2.2) hde
  simp only [flat3pt] at h3
  rw [hg c] at h3
  exact hcs h3.symm

/-- The two slanted-plane images differ as sets whenever the first
orientation holds a cell off the diagonal x = y. -/
lemma slant1_ne_slant2 {o1 o2 : List (ℤ × ℤ)}
    (hd : ∃ c ∈ o1, c.1 ≠ c.2) :
    (o1.map slant1pt).toFinset ≠ (o2.map slant2pt).toFinset := by
  intro h
  obtain ⟨c, hc, hcs⟩ := hd
  have h1 : slant1pt c ∈ (o1.map slant1pt).toFinset := by
    rw [List.mem_toFinset]
    exact List.mem_map_of_mem slant1pt hc
  rw [h, List.mem_toFinset, List.mem_map] at h1
  obtain ⟨d, -, hde⟩ := h1
  have hfst := congrArg (fun q : ℤ × ℤ × ℤ => q.1) hde
  have hsnd := congrArg (fun q : ℤ × ℤ × ℤ => q.2.1) hde
  simp only [slant1pt, slant2pt] at hfst hsnd
  exact hcs (by omega)

/-- C7: for every non-empty piece definition (a duplicate-free list of
offsets, per the data model), the 2D orientation set contains no two
orientations equal as unordered coordinate sets, every orientation
contains the origin, and every orientation has exactly as many cells as
the definition. -/
theorem claim_C7_all2d_orientation_set (definition : List (ℤ × ℤ))
    (h1 : definition ≠ []) (h2 : definition.Nodup) :
    (all_2d_rotations_and_translations definition).Pairwise
      (fun o1 o2 => o1.toFinset ≠ o2.toFinset) ∧
    (∀ o ∈ all_2d_rotations_and_translations definition,
      ((0 : ℤ), (0 : ℤ)) ∈ o) ∧
    ∀ o ∈ all_2d_rotations_and_translations definition,
      o.length = definition.length :=
  ⟨all2d_pairwise_setNe h2, fun _ ho => all2d_origin ho,
    fun _ ho => all2d_length ho⟩

/-- Witness for C7 at the definition of catalog piece A. -/
theorem claim_C7_witness :
    ([((0 : ℤ), (0 : ℤ)), (1, 0), (1, 1), (1, 2)] : List (ℤ × ℤ)) ≠ [] ∧
    ([((0 : ℤ), (0 : ℤ)), (1, 0), (1, 1), (1, 2)] : List (ℤ × ℤ)).Nodup ∧
    (all_2d_rotations_and_translations
      [((0 : ℤ), (0 : ℤ)), (1, 0), (1, 1), (1, 2)]).Pairwise
      (fun o1 o2 => o1.toFinset ≠ o2.toFinset) :=
  ⟨by decide, by decide,
    (claim_C7_all2d_orientation_set _ (by decide) (by decide)).1⟩

/-- C9: for every piece of the standard twelve-piece catalog, the 3D
orientation set built by embedding the 2D orientations into the three
structural planes contains no two orientations that are identical as
unordered coordinate sets. -/
theorem claim_C9_all3d_no_duplicate_sets : ∀ p ∈ PIECES,
    (all_3d_rotations_and_translations p.definition).Pairwise
      fun o1 o2 => o1.toFinset ≠ o2.toFinset := by
  intro p hp
  have hnd : p.definition.Nodup := (pieces_defs_ok p hp).2
  have hcross := pieces_cross_plane p hp
  unfold all_3d_rotations_and_translations
  rw [List.pairwise_append]
  refine ⟨all3d_plane_pairwise hnd flat3pt_injective, ?_, ?_⟩
  · rw [List.pairwise_append]
    refine ⟨all3d_plane_pairwise hnd slant1pt_injective,
      all3d_plane_pairwise hnd slant2pt_injective, ?_⟩
    intro a ha b hb
    obtain ⟨o1, ho1, rfl⟩ := List.mem_map.mp ha
    obtain ⟨o2, ho2, rfl⟩ := List.mem_map.mp hb
    exact slant1_ne_slant2 (hcross o1 ho1).2
  · intro a ha b hb
    obtain ⟨o1, ho1, rfl⟩ := List.mem_map.mp ha
    rcases List.mem_append.mp hb with hb1 | hb2
    · obtain ⟨o2, ho2, rfl⟩ := List.mem_map.mp hb1
      exact flat_ne_slant (fun c => rfl) (hcross o2 ho2).1
    · obtain ⟨o2, ho2, rfl⟩ := List.mem_map.mp hb2
      exact flat_ne_slant (fun c => rfl) (hcross o2 ho2).1

/-- Witness for C9 at catalog piece A. -/
theorem claim_C9_witness :
    (⟨"A", "orange", [(0, 0), (1, 0), (1, 1), (1, 2)]⟩ : Piece) ∈ PIECES ∧
    (all_3d_rotations_and_translations
      [((0 : ℤ), (0 : ℤ)), (1, 0), (1, 1), (1, 2)]).Pairwise
      (fun o1 o2 => o1.toFinset ≠ o2.toFinset) :=
  ⟨by decide,
    claim_C9_all3d_no_duplicate_sets
      ⟨"A", "orange", [(0, 0), (1, 0), (1, 1), (1, 2)]⟩ (by decide)⟩

/-! ## completed (claim C6) -/

/-- C6: in both solvers, completed() is true exactly when the
remaining-pieces list is empty and no grid cell holds the empty value 0;
blocked cells hold 255 and therefore do not prevent completion. -/
theorem claim_C6_completed_iff :
    (∀ s : Lonpos2DState, completed2 s = true ↔
      s.remaining_pieces = [] ∧ ∀ v ∈ s.board, v ≠ 0) ∧
    ∀ s : Lonpos3DState, completed3 s = true ↔
      s.remaining_pieces = [] ∧ ∀ v ∈ s.board, v ≠ 0 := by
  constructor <;> intro s <;>
    simp [completed2, completed3, List.isEmpty_iff, List.all_eq_true]

/-- Witness for C6: a fully occupied one-cell board with no remaining
pieces is completed; the same board with value 255 (blocked) is too. -/
theorem claim_C6_witness :
    completed2 ⟨1, 1, [255], []⟩ = true :=
  (claim_C6_completed_iff.1 ⟨1, 1, [255], []⟩).mpr ⟨rfl, by decide⟩

/-! ## next_pos in 2D (claim C8) -/

lemma next_pos2_loop_find (s : Lonpos2DState) (emptyL : List (ℤ × ℤ)) :
    ∀ (l : List (ℤ × ℤ)) (cand : Option (ℤ × ℤ)) (p : ℤ × ℤ),
      l.find? (fun q => decide (num_neighbors2 s emptyL q ≤ 1)) = some p →
      next_pos2_loop s emptyL l cand = some p := by
  intro l
  induction l with
  | nil => intro cand p h; simp at h
  | cons a rest ih =>
    intro cand p h
    by_cases ha : num_neighbors2 s emptyL a ≤ 1
    · rw [List.find?_cons_of_pos _ (by simpa using ha)] at h
      injection h with h
      subst h
      simp only [next_pos2_loop]
      rw [if_pos (by omega)]
    · rw [List.find?_cons_of_neg _ (by simpa using ha)] at h
      have hcond : ¬(num_neighbors2 s emptyL a = 0 ∨
          num_neighbors2 s emptyL a = 1) := by omega
      simp only [next_pos2_loop]
      rw [if_neg hcond]
      by_cases hc2 : cand = none ∧ num_neighbors2 s emptyL a = 2
      · rw [if_pos hc2]; exact ih _ p h
      · rw [if_neg hc2]; exact ih _ p h

/-- C8: `Lonpos2D.next_pos` returns the first empty cell in scan order
whose empty-neighbor count is 0 or 1; in particular, when some empty
cell has exactly one empty neighbor, the returned cell has at most one
empty neighbor. -/
theorem claim_C8_next_pos2_forced (s : Lonpos2DState) :
    (∀ p : ℤ × ℤ,
      (empty2 s).find? (fun q => decide (num_neighbors2 s (empty2 s) q ≤ 1)) =
          some p →
        next_pos2 s = some p) ∧
    ((∃ q ∈ empty2 s, num_neighbors2 s (empty2 s) q = 1) →
      ∃ r, next_pos2 s = some r ∧ num_neighbors2 s (empty2 s) r ≤ 1) := by
  constructor
  · intro p h
    exact next_pos2_loop_find s (empty2 s) (empty2 s) none p h
  · intro ⟨q, hq, hq1⟩
    have hsome : ((empty2 s).find?
        (fun a => decide (num_neighbors2 s (empty2 s) a ≤ 1))).isSome := by
      rw [List.find?_isSome]
      exact ⟨q, hq, by simp [hq1]⟩
    obtain ⟨p, hp⟩ := Option.isSome_iff_exists.mp hsome
    refine ⟨p, next_pos2_loop_find s (empty2 s) (empty2 s) none p hp, ?_⟩
    have := List.find?_some hp
    simpa using this

/-- Witness for C8 on a fully empty 1 x 2 board: the first scanned cell
has one empty neighbor and is returned. -/
theorem claim_C8_witness :
    next_pos2 ⟨1, 2, [0, 0], ["A"]⟩ = some (0, 0) :=
  (claim_C8_next_pos2_forced ⟨1, 2, [0, 0], ["A"]⟩).1 (0, 0) (by decide)

/-! ## next_pos in 3D (claim C1) -/

/-- The cell the spec fallback keeps: the first cell of the list
attaining the strictly minimum neighbor count (ties keep the earlier
cell). -/
def minNeighborCell (s : Lonpos3DState) (emptyL : List (ℤ × ℤ × ℤ)) :
    List (ℤ × ℤ × ℤ) → Option (ℤ × ℤ × ℤ)
  | [] => none
  | p :: rest =>
    match minNeighborCell s emptyL rest with
    | none => some p
    | some q =>
      if num_neighbors3 s emptyL p ≤ num_neighbors3 s emptyL q then some p
      else some q

/-- The amended reading of the spec for `Lonpos3D.next_pos`: return the
first empty cell in scan order with at most 2 empty neighbors; if there
is none, return the empty cell with the strictly minimum empty-neighbor
count (first-found tie-break), the scan ordering cells with x ascending,
y ascending and the topmost layer first within each column. -/
def next_pos3_spec (s : Lonpos3DState) : Option (ℤ × ℤ × ℤ) :=
  match (empty3 s).find?
      (fun p => decide (num_neighbors3 s (empty3 s) p ≤ 2)) with
  | some p => some p
  | none => minNeighborCell s (empty3 s) (empty3 s)

lemma next_pos3_loop_find (s : Lonpos3DState) (emptyL : List (ℤ × ℤ × ℤ)) :
    ∀ (l : List (ℤ × ℤ × ℤ)) (cand : Option (ℤ × ℤ × ℤ)) (cn : Nat)
      (p : ℤ × ℤ × ℤ),
      l.find? (fun q => decide (num_neighbors3 s emptyL q ≤ 2)) = some p →
      next_pos3_loop s emptyL l cand cn = some p := by
  intro l
  induction l with
  | nil => intro cand cn p h; simp at h
  | cons a rest ih =>
    intro cand cn p h
    by_cases ha : num_neighbors3 s emptyL a ≤ 2
    · rw [List.find?_cons_of_pos _ (by simpa using ha)] at h
      injection h with h
      subst h
      simp only [next_pos3_loop]
      rw [if_pos (by omega)]
    · rw [List.find?_cons_of_neg _ (by simpa using ha)] at h
      have hcond : ¬(num_neighbors3 s emptyL a = 0 ∨
          num_neighbors3 s emptyL a = 1 ∨ num_neighbors3 s emptyL a = 2) := by
        omega
      simp only [next_pos3_loop]
      rw [if_neg hcond]
      by_cases hc : cand = none ∨ num_neighbors3 s emptyL a < cn
      · rw [if_pos hc]; exact ih _ _ p h
      · rw [if_neg hc]; exact ih _ _ p h

lemma next_pos3_loop_min (s : Lonpos3DState) (emptyL : List (ℤ × ℤ × ℤ)) :
    ∀ l : List (ℤ × ℤ × ℤ),
      l.find? (fun a => decide (num_neighbors3 s emptyL a ≤ 2)) = none →
      (∀ (q : ℤ × ℤ × ℤ) (m : Nat),
        next_pos3_loop s emptyL l (some q) m =
          (minNeighborCell s emptyL l).elim (some q)
            (fun r => if num_neighbors3 s emptyL r < m then some r else some q)) ∧
      ∀ m0 : Nat, next_pos3_loop s emptyL l none m0 = minNeighborCell s emptyL l := by
  intro l
  induction l with
  | nil =>
    intro h
    exact ⟨fun q m => rfl, fun m0 => rfl⟩
  | cons a rest ih =>
    intro h
    rw [List.find?_cons] at h
    by_cases ha : num_neighbors3 s emptyL a ≤ 2
    · simp [ha] at h
    · have hna : (decide (num_neighbors3 s emptyL a ≤ 2)) = false := by
        simpa using ha
      rw [hna] at h
      obtain ⟨ihsome, -⟩ := ih h
      have hcond : ¬(num_neighbors3 s emptyL a = 0 ∨
          num_neighbors3 s emptyL a = 1 ∨ num_neighbors3 s emptyL a = 2) := by
        omega
      constructor
      · intro q m
        simp only [next_pos3_loop]
        rw [if_neg hcond]
        by_cases hlt : num_neighbors3 s emptyL a < m
        · rw [if_pos (Or.inr hlt), ihsome a (num_neighbors3 s emptyL a)]
          simp only [minNeighborCell]
          cases hmin : minNeighborCell s emptyL rest with
          | none => simp [hlt]
          | some r =>
            by_cases hr : num_neighbors3 s emptyL a ≤ num_neighbors3 s emptyL r
            · have h1 : ¬ num_neighbors3 s emptyL r < num_neighbors3 s emptyL a := by
                omega
              simp [hr, h1, hlt]
            · have h1 : num_neighbors3 s emptyL r < num_neighbors3 s emptyL a := by
                omega
              have h2 : num_neighbors3 s emptyL r < m := by omega
              simp [hr, h1, h2]
        · have hc : ¬(some q = none ∨ num_neighbors3 s emptyL a < m) := by
            rintro (hq | hq)
            · exact Option.noConfusion hq
            · exact hlt hq
          rw [if_neg hc, ihsome q m]
          simp only [minNeighborCell]
          cases hmin : minNeighborCell s emptyL rest with
          | none => simp [hlt]
          | some r =>
            by_cases hr : num_neighbors3 s emptyL a ≤ num_neighbors3 s emptyL r
            · have h1 : ¬ num_neighbors3 s emptyL r < m := by omega
              simp [hr, h1, hlt]
            · simp [hr]
      · intro m0
        simp only [next_pos3_loop]
        rw [if_neg hcond, if_pos (Or.inl trivial),
          ihsome a (num_neighbors3 s emptyL a)]
        simp only [minNeighborCell]
        cases hmin : minNeighborCell s emptyL rest with
        | none => simp
        | some r =>
          by_cases hr : num_neighbors3 s emptyL a ≤ num_neighbors3 s emptyL r
          · have h1 : ¬ num_neighbors3 s emptyL r < num_neighbors3 s emptyL a := by
              omega
            simp [hr, h1]
          · have h1 : num_neighbors3 s emptyL r < num_neighbors3 s emptyL a := by
              omega
            simp [hr, h1]

/-- C1 (amended): `Lonpos3D.next_pos` agrees everywhere with the rule
"first empty cell in scan order with at most 2 empty neighbors, else the
first-found strictly-minimum-count empty cell". -/
theorem claim_C1_next_pos3_characterization (s : Lonpos3DState) :
    next_pos3 s = next_pos3_spec s := by
  unfold next_pos3 next_pos3_spec
  cases hf : (empty3 s).find?
      (fun p => decide (num_neighbors3 s (empty3 s) p ≤ 2)) with
  | some p => exact next_pos3_loop_find s (empty3 s) (empty3 s) none 12 p hf
  | none => exact (next_pos3_loop_min s (empty3 s) (empty3 s) hf).2 12

/-- Counterexample to C1 as stated: on this 3 x 3 x 1 board the cell
(2, 2, 0) is empty with 0 empty neighbors, yet next_pos returns the
first scanned cell (0, 0, 0), which has 2 empty neighbors, because the
code returns immediately on a count of 0, 1 or 2, not only 0 or 1. -/
theorem claim_C1_counterexample :
    next_pos3 ⟨3, 3, 1, [0, 0, 0, 0, 0, 1, 0, 1, 0], ["X"]⟩ = some (0, 0, 0) ∧
    num_neighbors3 ⟨3, 3, 1, [0, 0, 0, 0, 0, 1, 0, 1, 0], ["X"]⟩
      (empty3 ⟨3, 3, 1, [0, 0, 0, 0, 0, 1, 0, 1, 0], ["X"]⟩) (0, 0, 0) = 2 ∧
    (2, 2, 0) ∈ empty3 ⟨3, 3, 1, [0, 0, 0, 0, 0, 1, 0, 1, 0], ["X"]⟩ ∧
    num_neighbors3 ⟨3, 3, 1, [0, 0, 0, 0, 0, 1, 0, 1, 0], ["X"]⟩
      (empty3 ⟨3, 3, 1, [0, 0, 0, 0, 0, 1, 0, 1, 0], ["X"]⟩) (2, 2, 0) = 0 := by
  refine ⟨by decide, by decide, by decide, by decide⟩

/-! ## Flat-grid write lemmas -/

/-- Writing `v` at a list of flat indices, the flattened form of
`_place`. -/
def setIdxs (data : List Nat) (idxs : List Nat) (v : Nat) : List Nat :=
  idxs.foldl (fun d i => d.set i v) data

lemma _place2_board (s : Lonpos2DState) (xy : List (ℤ × ℤ)) (index : Nat) :
    (_place2 s xy index).board =
      setIdxs s.board (xy.map fun p => flatIdx2 s p.1 p.2) index := by
  simp [_place2, setIdxs, List.foldl_map]

lemma _place3_board (s : Lonpos3DState) (xyz : List (ℤ × ℤ × ℤ)) (index : Nat) :
    (_place3 s xyz index).board =
      setIdxs s.board (xyz.map fun p => flatIdx3 s p.1 p.2.1 p.2.2) index := by
  simp [_place3, setIdxs, List.foldl_map]

lemma setIdxs_length (idxs : List Nat) :
    ∀ (data : List Nat) (v : Nat), (setIdxs data idxs v).length = data.length := by
  induction idxs with
  | nil => intro data v; rfl
  | cons a rest ih =>
    intro data v
    show (setIdxs (data.set a v) rest v).length = data.length
    rw [ih, List.length_set]

lemma getD_set (data : List Nat) (i j v : Nat) :
    (data.set i v).getD j 0 =
      if i = j ∧ i < data.length then v else data.getD j 0 := by
  rw [List.getD_eq_getElem?_getD, List.getD_eq_getElem?_getD, List.getElem?_set]
  by_cases h1 : i = j
  · subst h1
    by_cases h2 : i < data.length
    · rw [if_pos rfl, if_pos h2, if_pos ⟨rfl, h2⟩]
      rfl
    · rw [if_pos rfl, if_neg h2, if_neg (fun hc => h2 hc.2)]
      have : data[i]? = none := List.getElem?_eq_none (by omega)
      rw [this]
  · rw [if_neg h1, if_neg (fun hc => h1 hc.1)]

lemma setIdxs_getD (idxs : List Nat) :
    ∀ (data : List Nat) (v j : Nat),
      (setIdxs data idxs v).getD j 0 =
        if j ∈ idxs ∧ j < data.length then v else data.getD j 0 := by
  induction idxs with
  | nil => intro data v j; simp [setIdxs]
  | cons a rest ih =>
    intro data v j
    show (setIdxs (data.set a v) rest v).getD j 0 = _
    rw [ih, List.length_set, getD_set]
    by_cases h1 : j ∈ rest ∧ j < data.length
    · rw [if_pos h1, if_pos ⟨List.mem_cons_of_mem _ h1.1, h1.2⟩]
    · rw [if_neg h1]
      by_cases h2 : a = j ∧ a < data.length
      · rw [if_pos h2]
        rw [if_pos ⟨h2.1 ▸ List.mem_cons_self a rest, h2.1 ▸ h2.2⟩]
      · rw [if_neg h2]
        by_cases h3 : j ∈ a :: rest ∧ j < data.length
        · rcases List.mem_cons.mp h3.1 with rfl | hm
          · exact absurd ⟨rfl, h3.2⟩ h2
          · exact absurd ⟨hm, h3.2⟩ h1
        · rw [if_neg h3]

lemma ext_getD {l1 l2 : List Nat} (hlen : l1.length = l2.length)
    (h : ∀ j, l1.getD j 0 = l2.getD j 0) : l1 = l2 := by
  refine List.ext_getElem hlen fun n h1 h2 => ?_
  have := h n
  rwa [List.getD_eq_getElem?_getD, List.getD_eq_getElem?_getD,
    List.getElem?_eq_getElem h1, List.getElem?_eq_getElem h2,
    Option.getD_some, Option.getD_some] at this

/-- Writing a nonzero value over empty cells and then zeroing the same
cells restores the grid exactly. -/
lemma setIdxs_restore (data : List Nat) (idxs : List Nat) (v : Nat)
    (hz : ∀ i ∈ idxs, data.getD i 0 = 0) :
    setIdxs (setIdxs data idxs v) idxs 0 = data := by
  refine ext_getD (by rw [setIdxs_length, setIdxs_length]) fun j => ?_
  rw [setIdxs_getD, setIdxs_getD, setIdxs_length]
  by_cases h : j ∈ idxs ∧ j < data.length
  · rw [if_pos h]
    exact (hz j h.1).symm
  · rw [if_neg h, if_neg h]

lemma count_set_zero (data : List Nat) (i v : Nat) (hi : i < data.length)
    (h0 : data.getD i 0 = 0) (hv : v ≠ 0) :
    (data.set i v).count 0 = data.count 0 - 1 := by
  have hget : data[i] = 0 := by
    rw [List.getD_eq_getElem?_getD, List.getElem?_eq_getElem hi,
      Option.getD_some] at h0
    exact h0
  rw [List.count_set v 0 _ _ hi]
  simp [hget, hv]

lemma setIdxs_count (idxs : List Nat) :
    ∀ (data : List Nat) (v : Nat), idxs.Nodup →
      (∀ i ∈ idxs, i < data.length ∧ data.getD i 0 = 0) → v ≠ 0 →
      (setIdxs data idxs v).count 0 = data.count 0 - idxs.length := by
  induction idxs with
  | nil => intro data v _ _ _; rfl
  | cons a rest ih =>
    intro data v hnd hz hv
    have ha := hz a (List.mem_cons_self a rest)
    show (setIdxs (data.set a v) rest v).count 0 = _
    rw [ih (data.set a v) v (List.nodup_cons.mp hnd).2 ?_ hv]
    · rw [count_set_zero data a v ha.1 ha.2 hv]
      simp only [List.length_cons]
      omega
    · intro i hi
      have hne : a ≠ i := fun hc =>
        (List.nodup_cons.mp hnd).1 (hc ▸ hi)
      rw [List.length_set, getD_set, if_neg (fun hc => hne hc.1)]
      exact ⟨(hz i (List.mem_cons_of_mem _ hi)).1,
        (hz i (List.mem_cons_of_mem _ hi)).2⟩

/-! ## State restoration through the 2D search (claim C10) -/

/-- The frame relation of the search: shapes and grid are unchanged and
the remaining pieces hold the same names (as a multiset). -/
def sameBoard2 (s s' : Lonpos2DState) : Prop :=
  s'.shape0 = s.shape0 ∧ s'.shape1 = s.shape1 ∧ s'.board = s.board ∧
  s'.remaining_pieces.Perm s.remaining_pieces

lemma sameBoard2_refl (s : Lonpos2DState) : sameBoard2 s s :=
  ⟨rfl, rfl, rfl, List.Perm.refl _⟩

lemma sameBoard2_trans {s1 s2 s3 : Lonpos2DState} (h1 : sameBoard2 s1 s2)
    (h2 : sameBoard2 s2 s3) : sameBoard2 s1 s3 :=
  ⟨h2.1.trans h1.1, h2.2.1.trans h1.2.1, h2.2.2.1.trans h1.2.2.1,
    h2.2.2.2.trans h1.2.2.2⟩

lemma flatIdx2_congr {s s' : Lonpos2DState} (h : s'.shape1 = s.shape1) :
    flatIdx2 s' = flatIdx2 s := by
  funext x y
  simp [flatIdx2, h]

lemma can_place2_cells {s : Lonpos2DState} {xy : List (ℤ × ℤ)}
    (h : can_place2 s xy = true) :
    ∀ p ∈ xy, in_bounds2 s p.1 p.2 = true ∧ cell2 s p.1 p.2 = 0 := by
  simp only [can_place2, Bool.and_eq_true, List.all_eq_true,
    decide_eq_true_eq] at h
  intro p hp
  exact ⟨h.1 p hp, h.2 p hp⟩

/-- Placing an orientation on empty cells and then zeroing the same
cells leaves the grid exactly as it was. -/
lemma place_unplace_board2 {s : Lonpos2DState} {xy : List (ℤ × ℤ)}
    (index : Nat) (h : can_place2 s xy = true) :
    setIdxs (setIdxs s.board (xy.map fun p => flatIdx2 s p.1 p.2) index)
      (xy.map fun p => flatIdx2 s p.1 p.2) 0 = s.board := by
  refine setIdxs_restore _ _ _ fun i hi => ?_
  obtain ⟨p, hp, rfl⟩ := List.mem_map.mp hi
  exact (can_place2_cells h p hp).2

lemma board_update_rem (s : Lonpos2DState) (R : List String) :
    ({ s with remaining_pieces := R } : Lonpos2DState).board = s.board := rfl

lemma orientLoop2_restore
    (sol : Lonpos2DState → Except String (List (List Nat) × Lonpos2DState))
    (index : Nat)
    (IH : ∀ s ys s', sol s = .ok (ys, s') → sameBoard2 s s') :
    ∀ (orsL : List (List (ℤ × ℤ))) (name : String) (pos : Option (ℤ × ℤ))
      (s : Lonpos2DState) (ys : List (List Nat)) (s' : Lonpos2DState),
      name ∈ s.remaining_pieces →
      orientLoop2 sol index name orsL pos s = .ok (ys, s') →
      sameBoard2 s s' := by
  intro orsL
  induction orsL with
  | nil =>
    intro name pos s ys s' hname hok
    simp only [orientLoop2] at hok
    injection hok with hok
    injection hok with hok1 hok2
    subst hok2
    exact sameBoard2_refl s
  | cons xy0 restOrs ih =>
    intro name pos s ys s' hname hok
    cases pos with
    | none =>
      simp only [orientLoop2] at hok
      exact Except.noConfusion hok
    | some p =>
      simp only [orientLoop2] at hok
      split at hok
      next hcp =>
        -- a placement was possible at this orientation
        split at hok
        · exact Except.noConfusion hok
        next ys1 s2 hsol =>
          split at hok
          · exact Except.noConfusion hok
          next ys2 s4 horient =>
            injection hok with hok
            injection hok with hok1 hok2
            subst hok2
            have hS2 := IH _ ys1 s2 hsol
            have hshape0 : s2.shape0 = s.shape0 := hS2.1
            have hshape1 : s2.shape1 = s.shape1 := hS2.2.1
            have hs3same : sameBoard2 s
                { _place2 s2 (xy0.map fun q => (q.1 + p.1, q.2 + p.2)) 0 with
                    remaining_pieces := s2.remaining_pieces ++ [name] } := by
              refine ⟨hshape0, hshape1, ?_, ?_⟩
              · show (_place2 s2 (xy0.map fun q => (q.1 + p.1, q.2 + p.2)) 0).board =
                  s.board
                rw [_place2_board, flatIdx2_congr hshape1, hS2.2.2.1,
                  board_update_rem, _place2_board]
                exact place_unplace_board2 index hcp
              · show (s2.remaining_pieces ++ [name]).Perm s.remaining_pieces
                refine (List.perm_append_singleton name _).trans ?_
                exact (List.Perm.cons name hS2.2.2.2).trans
                  (List.perm_cons_erase hname).symm
            have hname3 : name ∈
                ({ _place2 s2 (xy0.map fun q => (q.1 + p.1, q.2 + p.2)) 0 with
                    remaining_pieces :=
                      s2.remaining_pieces ++ [name] } : Lonpos2DState).remaining_pieces :=
              List.mem_append_right _ (List.mem_singleton_self name)
            exact sameBoard2_trans hs3same
              (ih name (some p) _ ys2 s4 hname3 horient)
      next hcp =>
        -- can_place failed: the state is unchanged and the loop continues
        exact ih name (some p) s ys s' hname hok

lemma nameLoop2_restore
    (sol : Lonpos2DState → Except String (List (List Nat) × Lonpos2DState))
    (orientations : Nat → List (List (ℤ × ℤ))) (piece_idx : String → Nat)
    (IH : ∀ s ys s', sol s = .ok (ys, s') → sameBoard2 s s') :
    ∀ (names : List String) (pos : Option (ℤ × ℤ)) (s : Lonpos2DState)
      (ys : List (List Nat)) (s' : Lonpos2DState),
      (∀ n ∈ names, n ∈ s.remaining_pieces) →
      nameLoop2 sol orientations piece_idx names pos s = .ok (ys, s') →
      sameBoard2 s s' := by
  intro names
  induction names with
  | nil =>
    intro pos s ys s' hsub hok
    simp only [nameLoop2] at hok
    injection hok with hok
    injection hok with hok1 hok2
    subst hok2
    exact sameBoard2_refl s
  | cons name rest ih =>
    intro pos s ys s' hsub hok
    simp only [nameLoop2] at hok
    split at hok
    · exact Except.noConfusion hok
    next ys1 s1 horient =>
      split at hok
      · exact Except.noConfusion hok
      next ys2 s2 hrest =>
        injection hok with hok
        injection hok with hok1 hok2
        subst hok2
        have hS1 := orientLoop2_restore sol (piece_idx name) IH _ name
          pos s ys1 s1 (hsub name (List.mem_cons_self name rest)) horient
        have hsub1 : ∀ n ∈ rest, n ∈ s1.remaining_pieces := fun n hn =>
          hS1.2.2.2.mem_iff.mpr (hsub n (List.mem_cons_of_mem _ hn))
        exact sameBoard2_trans hS1 (ih pos s1 ys2 s2 hsub1 hrest)

lemma solutions2_restore (orientations : Nat → List (List (ℤ × ℤ)))
    (piece_idx : String → Nat) :
    ∀ (fuel : Nat) (s : Lonpos2DState) (ys : List (List Nat))
      (s' : Lonpos2DState),
      solutions2 orientations piece_idx fuel s = .ok (ys, s') →
      sameBoard2 s s' := by
  intro fuel
  induction fuel with
  | zero =>
    intro s ys s' hok
    simp only [solutions2] at hok
    exact Except.noConfusion hok
  | succ fuel ih =>
    intro s ys s' hok
    simp only [solutions2] at hok
    by_cases hrem : s.remaining_pieces.isEmpty = true
    · rw [if_pos hrem] at hok
      injection hok with hok
      injection hok with hok1 hok2
      subst hok2
      exact sameBoard2_refl s
    · rw [if_neg hrem] at hok
      exact nameLoop2_restore (solutions2 orientations piece_idx fuel)
        orientations piece_idx ih _ _ s ys s' (fun n hn => hn) hok

/-! ## State restoration through the 3D search -/

/-- The frame relation of the 3D search. -/
def sameBoard3 (s s' : Lonpos3DState) : Prop :=
  s'.shape0 = s.shape0 ∧ s'.shape1 = s.shape1 ∧ s'.shape2 = s.shape2 ∧
  s'.board = s.board ∧ s'.remaining_pieces.Perm s.remaining_pieces

lemma sameBoard3_refl (s : Lonpos3DState) : sameBoard3 s s :=
  ⟨rfl, rfl, rfl, rfl, List.Perm.refl _⟩

lemma sameBoard3_trans {s1 s2 s3 : Lonpos3DState} (h1 : sameBoard3 s1 s2)
    (h2 : sameBoard3 s2 s3) : sameBoard3 s1 s3 :=
  ⟨h2.1.trans h1.1, h2.2.1.trans h1.2.1, h2.2.2.1.trans h1.2.2.1,
    h2.2.2.2.1.trans h1.2.2.2.1, h2.2.2.2.2.trans h1.2.2.2.2⟩

lemma flatIdx3_congr {s s' : Lonpos3DState} (h1 : s'.shape1 = s.shape1)
    (h2 : s'.shape2 = s.shape2) : flatIdx3 s' = flatIdx3 s := by
  funext x y z
  simp [flatIdx3, h1, h2]

lemma can_place3_cells {s : Lonpos3DState} {xyz : List (ℤ × ℤ × ℤ)}
    (h : can_place3 s xyz = true) :
    ∀ p ∈ xyz, in_bounds3 s p.1 p.2.1 p.2.2 = true ∧
      cell3 s p.1 p.2.1 p.2.2 = 0 := by
  simp only [can_place3, Bool.and_eq_true, List.all_eq_true,
    decide_eq_true_eq] at h
  intro p hp
  exact ⟨h.1 p hp, h.2 p hp⟩

lemma place_unplace_board3 {s : Lonpos3DState} {xyz : List (ℤ × ℤ × ℤ)}
    (index : Nat) (h : can_place3 s xyz = true) :
    setIdxs (setIdxs s.board (xyz.map fun p => flatIdx3 s p.1 p.2.1 p.2.2) index)
      (xyz.map fun p => flatIdx3 s p.1 p.2.1 p.2.2) 0 = s.board := by
  refine setIdxs_restore _ _ _ fun i hi => ?_
  obtain ⟨p, hp, rfl⟩ := List.mem_map.mp hi
  exact (can_place3_cells h p hp).2

lemma board3_update_rem (s : Lonpos3DState) (R : List String) :
    ({ s with remaining_pieces := R } : Lonpos3DState).board = s.board := rfl

lemma orientLoop3_restore
    (sol : Lonpos3DState → Except String (List (List Nat) × Lonpos3DState))
    (index : Nat)
    (IH : ∀ s ys s', sol s = .ok (ys, s') → sameBoard3 s s') :
    ∀ (orsL : List (List (ℤ × ℤ × ℤ))) (name : String)
      (pos : Option (ℤ × ℤ × ℤ)) (s : Lonpos3DState) (ys : List (List Nat))
      (s' : Lonpos3DState),
      name ∈ s.remaining_pieces →
      orientLoop3 sol index name orsL pos s = .ok (ys, s') →
      sameBoard3 s s' := by
  intro orsL
  induction orsL with
  | nil =>
    intro name pos s ys s' hname hok
    simp only [orientLoop3] at hok
    injection hok with hok
    injection hok with hok1 hok2
    subst hok2
    exact sameBoard3_refl s
  | cons xyz0 restOrs ih =>
    intro name pos s ys s' hname hok
    cases pos with
    | none =>
      simp only [orientLoop3] at hok
      exact Except.noConfusion hok
    | some p =>
      simp only [orientLoop3] at hok
      split at hok
      next hcp =>
        split at hok
        · exact Except.noConfusion hok
        next ys1 s2 hsol =>
          split at hok
          · exact Except.noConfusion hok
          next ys2 s4 horient =>
            injection hok with hok
            injection hok with hok1 hok2
            subst hok2
            have hS2 := IH _ ys1 s2 hsol
            have hshape0 : s2.shape0 = s.shape0 := hS2.1
            have hshape1 : s2.shape1 = s.shape1 := hS2.2.1
            have hshape2 : s2.shape2 = s.shape2 := hS2.2.2.1
            have hs3same : sameBoard3 s
                { _place3 s2 (xyz0.map fun q =>
                    (q.1 + p.1, q.2.1 + p.2.1, q.2.2 + p.2.2)) 0 with
                    remaining_pieces := s2.remaining_pieces ++ [name] } := by
              refine ⟨hshape0, hshape1, hshape2, ?_, ?_⟩
              · show (_place3 s2 (xyz0.map fun q =>
                    (q.1 + p.1, q.2.1 + p.2.1, q.2.2 + p.2.2)) 0).board = s.board
                rw [_place3_board, flatIdx3_congr hshape1 hshape2, hS2.2.2.2.1,
                  board3_update_rem, _place3_board]
                exact place_unplace_board3 index hcp
              · show (s2.remaining_pieces ++ [name]).Perm s.remaining_pieces
                refine (List.perm_append_singleton name _).trans ?_
                exact (List.Perm.cons name hS2.2.2.2.2).trans
                  (List.perm_cons_erase hname).symm
            have hname3 : name ∈
                ({ _place3 s2 (xyz0.map fun q =>
                    (q.1 + p.1, q.2.1 + p.2.1, q.2.2 + p.2.2)) 0 with
                    remaining_pieces :=
                      s2.remaining_pieces ++ [name] } : Lonpos3DState).remaining_pieces :=
              List.mem_append_right _ (List.mem_singleton_self name)
            exact sameBoard3_trans hs3same
              (ih name (some p) _ ys2 s4 hname3 horient)
      next hcp =>
        exact ih name (some p) s ys s' hname hok

lemma nameLoop3_restore
    (sol : Lonpos3DState → Except String (List (List Nat) × Lonpos3DState))
    (orientations : Nat → List (List (ℤ × ℤ × ℤ))) (piece_idx : String → Nat)
    (IH : ∀ s ys s', sol s = .ok (ys, s') → sameBoard3 s s') :
    ∀ (names : List String) (pos : Option (ℤ × ℤ × ℤ)) (s : Lonpos3DState)
      (ys : List (List Nat)) (s' : Lonpos3DState),
      (∀ n ∈ names, n ∈ s.remaining_pieces) →
      nameLoop3 sol orientations piece_idx names pos s = .ok (ys, s') →
      sameBoard3 s s' := by
  intro names
  induction names with
  | nil =>
    intro pos s ys s' hsub hok
    simp only [nameLoop3] at hok
    injection hok with hok
    injection hok with hok1 hok2
    subst hok2
    exact sameBoard3_refl s
  | cons name rest ih =>
    intro pos s ys s' hsub hok
    simp only [nameLoop3] at hok
    split at hok
    · exact Except.noConfusion hok
    next ys1 s1 horient =>
      split at hok
      · exact Except.noConfusion hok
      next ys2 s2 hrest =>
        injection hok with hok
        injection hok with hok1 hok2
        subst hok2
        have hS1 := orientLoop3_restore sol (piece_idx name) IH _ name
          pos s ys1 s1 (hsub name (List.mem_cons_self name rest)) horient
        have hsub1 : ∀ n ∈ rest, n ∈ s1.remaining_pieces := fun n hn =>
          hS1.2.2.2.2.mem_iff.mpr (hsub n (List.mem_cons_of_mem _ hn))
        exact sameBoard3_trans hS1 (ih pos s1 ys2 s2 hsub1 hrest)

lemma solutions3_restore (orientations : Nat → List (List (ℤ × ℤ × ℤ)))
    (piece_idx : String → Nat) :
    ∀ (fuel : Nat) (s : Lonpos3DState) (ys : List (List Nat))
      (s' : Lonpos3DState),
      solutions3 orientations piece_idx fuel s = .ok (ys, s') →
      sameBoard3 s s' := by
  intro fuel
  induction fuel with
  | zero =>
    intro s ys s' hok
    simp only [solutions3] at hok
    exact Except.noConfusion hok
  | succ fuel ih =>
    intro s ys s' hok
    simp only [solutions3] at hok
    by_cases hrem : s.remaining_pieces.isEmpty = true
    · rw [if_pos hrem] at hok
      injection hok with hok
      injection hok with hok1 hok2
      subst hok2
      exact sameBoard3_refl s
    · rw [if_neg hrem] at hok
      exact nameLoop3_restore (solutions3 orientations piece_idx fuel)
        orientations piece_idx ih _ _ s ys s' (fun n hn => hn) hok

/-- C10: when a solutions run terminates normally, the grid (and shape)
are exactly as before the run and the remaining pieces hold exactly the
same names (the list may be reordered: each tried piece is re-appended
at the end). -/
theorem claim_C10_search_restores_state :
    (∀ (orientations : Nat → List (List (ℤ × ℤ))) (piece_idx : String → Nat)
      (fuel : Nat) (s : Lonpos2DState) (ys : List (List Nat))
      (s' : Lonpos2DState),
      solutions2 orientations piece_idx fuel s = .ok (ys, s') →
      s'.board = s.board ∧ s'.shape0 = s.shape0 ∧ s'.shape1 = s.shape1 ∧
      s'.remaining_pieces.Perm s.remaining_pieces) ∧
    ∀ (orientations : Nat → List (List (ℤ × ℤ × ℤ))) (piece_idx : String → Nat)
      (fuel : Nat) (s : Lonpos3DState) (ys : List (List Nat))
      (s' : Lonpos3DState),
      solutions3 orientations piece_idx fuel s = .ok (ys, s') →
      s'.board = s.board ∧ s'.remaining_pieces.Perm s.remaining_pieces := by
  constructor
  · intro orientations piece_idx fuel s ys s' hok
    have h := solutions2_restore orientations piece_idx fuel s ys s' hok
    exact ⟨h.2.2.1, h.1, h.2.1, h.2.2.2⟩
  · intro orientations piece_idx fuel s ys s' hok
    have h := solutions3_restore orientations piece_idx fuel s ys s' hok
    exact ⟨h.2.2.2.1, h.2.2.2.2⟩

/-- Witness for C10: a full run on a 2 x 2 board with one blocked cell
and the single piece F finds the unique tiling and hands back the
starting state unchanged. -/
theorem claim_C10_witness :
    solutions2 (fun _ => all_2d_rotations_and_translations [(0, 0), (1, 0), (1, 1)])
      (fun _ => 1) 2 ⟨2, 2, [0, 0, 0, 255], ["F"]⟩ =
      .ok ([[1, 1, 1, 255]], ⟨2, 2, [0, 0, 0, 255], ["F"]⟩) ∧
    (⟨2, 2, [0, 0, 0, 255], ["F"]⟩ : Lonpos2DState).board = [0, 0, 0, 255] ∧
    (["F"] : List String).Perm ["F"] := by
  refine ⟨by decide, rfl, ?_⟩
  have h := (claim_C10_search_restores_state.1
    (fun _ => all_2d_rotations_and_translations [(0, 0), (1, 0), (1, 1)])
    (fun _ => 1) 2 ⟨2, 2, [0, 0, 0, 255], ["F"]⟩ [[1, 1, 1, 255]]
    ⟨2, 2, [0, 0, 0, 255], ["F"]⟩ (by decide))
  exact h.2.2.2

/-! ## Dead ends (claim C2) -/

lemma nameLoop2_pos_none_error
    (sol : Lonpos2DState → Except String (List (List Nat) × Lonpos2DState))
    (orientations : Nat → List (List (ℤ × ℤ))) (piece_idx : String → Nat) :
    ∀ (names : List String) (s : Lonpos2DState),
      (∃ n ∈ names, orientations (piece_idx n) ≠ []) →
      nameLoop2 sol orientations piece_idx names none s =
        .error typeErrorMsg := by
  intro names
  induction names with
  | nil =>
    rintro s ⟨n, hn, -⟩
    exact absurd hn (List.not_mem_nil n)
  | cons name rest ih =>
    rintro s ⟨n, hn, hne⟩
    simp only [nameLoop2]
    by_cases h : orientations (piece_idx name) = []
    · have horient : orientLoop2 sol (piece_idx name) name
          (orientations (piece_idx name)) none s = .ok ([], s) := by
        rw [h]
        simp only [orientLoop2]
      rw [horient]
      rcases List.mem_cons.mp hn with rfl | hn2
      · exact absurd h hne
      · show (match nameLoop2 sol orientations piece_idx rest none s with
          | .error e => .error e
          | .ok (ys2, s2) => .ok (([] : List (List Nat)) ++ ys2, s2)) =
            Except.error typeErrorMsg
        rw [ih s ⟨n, hn2, hne⟩]
    · have horient : orientLoop2 sol (piece_idx name) name
          (orientations (piece_idx name)) none s = .error typeErrorMsg := by
        cases hc : orientations (piece_idx name) with
        | nil => exact absurd hc h
        | cons xy0 tl => simp only [orientLoop2]
      rw [horient]

lemma nameLoop3_pos_none_error
    (sol : Lonpos3DState → Except String (List (List Nat) × Lonpos3DState))
    (orientations : Nat → List (List (ℤ × ℤ × ℤ))) (piece_idx : String → Nat) :
    ∀ (names : List String) (s : Lonpos3DState),
      (∃ n ∈ names, orientations (piece_idx n) ≠ []) →
      nameLoop3 sol orientations piece_idx names none s =
        .error typeErrorMsg := by
  intro names
  induction names with
  | nil =>
    rintro s ⟨n, hn, -⟩
    exact absurd hn (List.not_mem_nil n)
  | cons name rest ih =>
    rintro s ⟨n, hn, hne⟩
    simp only [nameLoop3]
    by_cases h : orientations (piece_idx name) = []
    · have horient : orientLoop3 sol (piece_idx name) name
          (orientations (piece_idx name)) none s = .ok ([], s) := by
        rw [h]
        simp only [orientLoop3]
      rw [horient]
      rcases List.mem_cons.mp hn with rfl | hn2
      · exact absurd h hne
      · show (match nameLoop3 sol orientations piece_idx rest none s with
          | .error e => .error e
          | .ok (ys2, s2) => .ok (([] : List (List Nat)) ++ ys2, s2)) =
            Except.error typeErrorMsg
        rw [ih s ⟨n, hn2, hne⟩]
    · have horient : orientLoop3 sol (piece_idx name) name
          (orientations (piece_idx name)) none s = .error typeErrorMsg := by
        cases hc : orientations (piece_idx name) with
        | nil => exact absurd hc h
        | cons xyz0 tl => simp only [orientLoop3]
      rw [horient]

/-- C2 (amended): on a dead end (next_pos returns none while pieces
remain, at least one of them with a non-empty orientation list), the
solutions run does not silently yield nothing: it raises the TypeError
of translating an orientation by a none position. -/
theorem claim_C2_amended :
    (∀ (orientations : Nat → List (List (ℤ × ℤ))) (piece_idx : String → Nat)
      (fuel : Nat) (s : Lonpos2DState), 0 < fuel → next_pos2 s = none →
      (∃ n ∈ s.remaining_pieces, orientations (piece_idx n) ≠ []) →
      solutions2 orientations piece_idx fuel s = .error typeErrorMsg) ∧
    ∀ (orientations : Nat → List (List (ℤ × ℤ × ℤ))) (piece_idx : String → Nat)
      (fuel : Nat) (s : Lonpos3DState), 0 < fuel → next_pos3 s = none →
      (∃ n ∈ s.remaining_pieces, orientations (piece_idx n) ≠ []) →
      solutions3 orientations piece_idx fuel s = .error typeErrorMsg := by
  constructor
  · intro orientations piece_idx fuel s hfuel hpos hex
    cases fuel with
    | zero => exact absurd hfuel (by omega)
    | succ fuel =>
      simp only [solutions2]
      obtain ⟨n, hn, hne⟩ := hex
      have hrem : s.remaining_pieces.isEmpty = false := by
        cases hc : s.remaining_pieces with
        | nil => rw [hc] at hn; exact absurd hn (List.not_mem_nil n)
        | cons a l => rfl
      rw [hrem]
      show nameLoop2 (solutions2 orientations piece_idx fuel) orientations
        piece_idx s.remaining_pieces (next_pos2 s) s = Except.error typeErrorMsg
      rw [hpos]
      exact nameLoop2_pos_none_error (solutions2 orientations piece_idx fuel)
        orientations piece_idx s.remaining_pieces s ⟨n, hn, hne⟩
  · intro orientations piece_idx fuel s hfuel hpos hex
    cases fuel with
    | zero => exact absurd hfuel (by omega)
    | succ fuel =>
      simp only [solutions3]
      obtain ⟨n, hn, hne⟩ := hex
      have hrem : s.remaining_pieces.isEmpty = false := by
        cases hc : s.remaining_pieces with
        | nil => rw [hc] at hn; exact absurd hn (List.not_mem_nil n)
        | cons a l => rfl
      rw [hrem]
      show nameLoop3 (solutions3 orientations piece_idx fuel) orientations
        piece_idx s.remaining_pieces (next_pos3 s) s = Except.error typeErrorMsg
      rw [hpos]
      exact nameLoop3_pos_none_error (solutions3 orientations piece_idx fuel)
        orientations piece_idx s.remaining_pieces s ⟨n, hn, hne⟩

/-- Counterexample to C2 as stated: on a fully blocked 1 x 1 board with
all twelve pieces remaining, next_pos returns none but the solutions run
raises a TypeError instead of terminating without error. -/
theorem claim_C2_counterexample :
    next_pos2 ⟨1, 1, [255],
      ["A", "B", "C", "D", "E", "F", "G", "H", "I", "J", "K", "L"]⟩ = none ∧
    (⟨1, 1, [255],
      ["A", "B", "C", "D", "E", "F", "G", "H", "I", "J", "K", "L"]⟩ :
        Lonpos2DState).remaining_pieces ≠ [] ∧
    solutions2 orientations2D piece_idx2D 13
      ⟨1, 1, [255],
        ["A", "B", "C", "D", "E", "F", "G", "H", "I", "J", "K", "L"]⟩ =
      .error typeErrorMsg := by
  refine ⟨by decide, by decide, by decide⟩

/-- Witness for C2 (amended), at the same dead-end state, through the
theorem itself. -/
theorem claim_C2_witness :
    solutions2 orientations2D piece_idx2D 7
      ⟨1, 1, [255],
        ["A", "B", "C", "D", "E", "F", "G", "H", "I", "J", "K", "L"]⟩ =
      .error typeErrorMsg :=
  claim_C2_amended.1 orientations2D piece_idx2D 7 _ (by omega) (by decide)
    ⟨"A", by decide, by decide⟩

/-! ## place and unplace errors (claim C3) -/

/-- C3 (amended): every failing `place` call (unavailable piece, empty
or unrecognized cell-set, cells not placeable) reports an error and
leaves the state unchanged, and `place` succeeds exactly when all the
checks pass; `unplace` on a single absent piece reports an error with
the state unchanged.  (An `unplace` call naming several pieces can
mutate the board before raising; see the counterexample.) -/
theorem claim_C3_place_unplace_errors :
    (∀ (orientations : Nat → List (List (ℤ × ℤ))) (piece_idx : String → Nat)
      (s : Lonpos2DState) (name : String) (xy : List (ℤ × ℤ)),
      ((place2 orientations piece_idx s name xy).2.isSome →
        (place2 orientations piece_idx s name xy).1 = s) ∧
      ((place2 orientations piece_idx s name xy).2 = none ↔
        name ∈ s.remaining_pieces ∧ xy ≠ [] ∧
        normalized_tuple (xy.map fun p => p - xy.headD (0, 0)) ∈
          (orientations (piece_idx name)).map normalized_tuple ∧
        can_place2 s xy = true)) ∧
    ∀ (piece_idx : String → Nat) (s : Lonpos2DState) (name : String),
      (unplace2 piece_idx s [name]).2.isSome →
      (unplace2 piece_idx s [name]).1 = s := by
  constructor
  · intro orientations piece_idx s name xy
    by_cases hmem : name ∈ s.remaining_pieces
    · cases xy with
      | nil =>
        have he : place2 orientations piece_idx s name [] =
            (s, some "IndexError") := by
          simp only [place2]
          rw [if_pos hmem]
        rw [he]
        exact ⟨fun _ => rfl, by simp⟩
      | cons p0 tl =>
        have hmapeq : ((p0 :: tl).map fun p => p - p0) =
            ((0 : ℤ × ℤ) :: tl.map fun p => p - p0) := by simp
        by_cases hor : normalized_tuple ((p0 :: tl).map fun p => p - p0) ∈
            (orientations (piece_idx name)).map normalized_tuple
        · by_cases hcp : can_place2 s (p0 :: tl) = true
          · have he : place2 orientations piece_idx s name (p0 :: tl) =
                ({ _place2 s (p0 :: tl) (piece_idx name) with
                    remaining_pieces := s.remaining_pieces.erase name }, none) := by
              simp only [place2]
              rw [if_pos hmem, if_pos hor, if_pos hcp]
            rw [he]
            refine ⟨fun hs => (by simp at hs), ?_⟩
            simp only [List.headD_cons]
            have hor2 := hor
            rw [hmapeq] at hor2
            simp [hmem, hor2, hcp]
          · have he : place2 orientations piece_idx s name (p0 :: tl) =
                (s, some "cannot place") := by
              simp only [place2]
              rw [if_pos hmem, if_pos hor, if_neg hcp]
            rw [he]
            refine ⟨fun _ => rfl, ?_⟩
            simp only [List.headD_cons]
            simp [hcp]
        · have he : place2 orientations piece_idx s name (p0 :: tl) =
              (s, some "not a valid orientation") := by
            simp only [place2]
            rw [if_pos hmem, if_neg hor]
          rw [he]
          refine ⟨fun _ => rfl, ?_⟩
          simp only [List.headD_cons]
          have hor2 := hor
          rw [hmapeq] at hor2
          simp [hor2]
    · have he : place2 orientations piece_idx s name xy =
          (s, some "piece not available") := by
        simp only [place2]
        rw [if_neg hmem]
      rw [he]
      refine ⟨fun _ => rfl, ?_⟩
      simp [hmem]
  · intro piece_idx s name h
    by_cases hxy : get_xy s (piece_idx name) = []
    · simp [unplace2, hxy]
    · simp [unplace2, hxy] at h

/-- Counterexample to C3 as stated: an `unplace` call naming piece A
(on the board) and then piece B (absent) raises on B but has already
removed A, so the board is not left as it was before the call. -/
theorem claim_C3_counterexample :
    (unplace2 piece_idx2D ⟨1, 2, [1, 0], ["B"]⟩ ["A", "B"]).2.isSome = true ∧
    (unplace2 piece_idx2D ⟨1, 2, [1, 0], ["B"]⟩ ["A", "B"]).1 ≠
      ⟨1, 2, [1, 0], ["B"]⟩ := by
  refine ⟨by decide, by decide⟩

/-- Witness for C3 (amended): placing a piece that is not available
errors and leaves the state unchanged. -/
theorem claim_C3_witness :
    (place2 orientations2D piece_idx2D ⟨1, 1, [0], []⟩ "A" [(0, 0)]).1 =
      ⟨1, 1, [0], []⟩ :=
  (claim_C3_place_unplace_errors.1 orientations2D piece_idx2D
    ⟨1, 1, [0], []⟩ "A" [(0, 0)]).1 (by decide)

/-! ## place followed by unplace (claim C4) -/

lemma Lonpos2DState_ext {a b : Lonpos2DState} (h0 : a.shape0 = b.shape0)
    (h1 : a.shape1 = b.shape1) (h2 : a.board = b.board)
    (h3 : a.remaining_pieces = b.remaining_pieces) : a = b := by
  cases a
  cases b
  simp only at h0 h1 h2 h3
  rw [h0, h1, h2, h3]

lemma in_bounds2_iff {s : Lonpos2DState} {x y : ℤ} :
    in_bounds2 s x y = true ↔
      0 ≤ x ∧ x < (s.shape0 : ℤ) ∧ 0 ≤ y ∧ y < (s.shape1 : ℤ) := by
  simp [in_bounds2, and_assoc]

lemma mem_grid2 {s : Lonpos2DState} {p : ℤ × ℤ} :
    p ∈ grid2 s ↔
      0 ≤ p.1 ∧ p.1 < (s.shape0 : ℤ) ∧ 0 ≤ p.2 ∧ p.2 < (s.shape1 : ℤ) := by
  constructor
  · intro hp
    simp only [grid2] at hp
    obtain ⟨x, hx, hp2⟩ := List.mem_flatMap.mp hp
    obtain ⟨y, hy, he⟩ := List.mem_map.mp hp2
    rw [List.mem_range] at hx hy
    have h1 : p.1 = (x : ℤ) := by rw [← he]
    have h2 : p.2 = (y : ℤ) := by rw [← he]
    omega
  · rintro ⟨h1, h2, h3, h4⟩
    simp only [grid2]
    apply List.mem_flatMap.mpr
    refine ⟨p.1.toNat, List.mem_range.mpr (by omega), ?_⟩
    apply List.mem_map.mpr
    refine ⟨p.2.toNat, List.mem_range.mpr (by omega), ?_⟩
    show ((p.1.toNat : ℤ), (p.2.toNat : ℤ)) = p
    rw [Int.toNat_of_nonneg h1, Int.toNat_of_nonneg h3]

lemma flat_lt {x y n m : Nat} (hx : x < n) (hy : y < m) :
    x * m + y < n * m := by
  calc x * m + y < x * m + m := by omega
  _ = (x + 1) * m := by ring
  _ ≤ n * m := Nat.mul_le_mul_right m hx

lemma flatIdx2_lt {s : Lonpos2DState} {p : ℤ × ℤ}
    (hp : in_bounds2 s p.1 p.2 = true) :
    flatIdx2 s p.1 p.2 < s.shape0 * s.shape1 := by
  rw [in_bounds2_iff] at hp
  have hx : p.1.toNat < s.shape0 := by omega
  have hy : p.2.toNat < s.shape1 := by omega
  exact flat_lt hx hy

lemma flatIdx2_inj_on {s : Lonpos2DState} {p q : ℤ × ℤ}
    (hp : in_bounds2 s p.1 p.2 = true) (hq : in_bounds2 s q.1 q.2 = true)
    (h : flatIdx2 s p.1 p.2 = flatIdx2 s q.1 q.2) : p = q := by
  rw [in_bounds2_iff] at hp hq
  simp only [flatIdx2] at h
  have hym : p.2.toNat < s.shape1 := by omega
  have hym2 : q.2.toNat < s.shape1 := by omega
  have hmod : p.2.toNat = q.2.toNat := by
    have h1 : (p.1.toNat * s.shape1 + p.2.toNat) % s.shape1 = p.2.toNat := by
      rw [Nat.mul_comm, Nat.mul_add_mod]
      exact Nat.mod_eq_of_lt hym
    have h2 : (q.1.toNat * s.shape1 + q.2.toNat) % s.shape1 = q.2.toNat := by
      rw [Nat.mul_comm, Nat.mul_add_mod]
      exact Nat.mod_eq_of_lt hym2
    rw [← h1, ← h2, h]
  have hx : p.1.toNat * s.shape1 = q.1.toNat * s.shape1 := by omega
  have hm0 : 0 < s.shape1 := by omega
  have hxeq : p.1.toNat = q.1.toNat := Nat.eq_of_mul_eq_mul_right hm0 hx
  have hp1 : p.1 = q.1 := by omega
  have hp2 : p.2 = q.2 := by omega
  exact Prod.ext hp1 hp2

/-- C4 (amended): placing an available piece on a board that does not
already hold its index, then immediately unplacing it, restores the grid
exactly; the remaining-pieces list holds the same names again but the
piece has moved to the end (the source removes it in place and appends
it back), so the order is restored only up to permutation. -/
theorem claim_C4_place_unplace_roundtrip
    (orientations : Nat → List (List (ℤ × ℤ))) (piece_idx : String → Nat)
    (s : Lonpos2DState) (name : String) (xy0 : List (ℤ × ℤ))
    (s1 : Lonpos2DState)
    (hlen : s.board.length = s.shape0 * s.shape1)
    (hidx : piece_idx name ≠ 0)
    (hnoton : ∀ v ∈ s.board, v ≠ piece_idx name)
    (hplace : place2 orientations piece_idx s name xy0 = (s1, none)) :
    unplace2 piece_idx s1 [name] =
      ({ s with remaining_pieces := s.remaining_pieces.erase name ++ [name] },
        none) ∧
    (s.remaining_pieces.erase name ++ [name]).Perm s.remaining_pieces := by
  by_cases hmem : name ∈ s.remaining_pieces
  case neg =>
    have he : place2 orientations piece_idx s name xy0 =
        (s, some "piece not available") := by
      simp only [place2]
      rw [if_neg hmem]
    rw [he] at hplace
    injection hplace with h1 h2
    exact Option.noConfusion h2
  case pos =>
    cases xy0 with
    | nil =>
      have he : place2 orientations piece_idx s name [] =
          (s, some "IndexError") := by
        simp only [place2]
        rw [if_pos hmem]
      rw [he] at hplace
      injection hplace with h1 h2
      exact Option.noConfusion h2
    | cons p0 tl =>
      by_cases hor : normalized_tuple ((p0 :: tl).map fun p => p - p0) ∈
          (orientations (piece_idx name)).map normalized_tuple
      case neg =>
        have he : place2 orientations piece_idx s name (p0 :: tl) =
            (s, some "not a valid orientation") := by
          simp only [place2]
          rw [if_pos hmem, if_neg hor]
        rw [he] at hplace
        injection hplace with h1 h2
        exact Option.noConfusion h2
      case pos =>
        by_cases hcp : can_place2 s (p0 :: tl) = true
        case neg =>
          have he : place2 orientations piece_idx s name (p0 :: tl) =
              (s, some "cannot place") := by
            simp only [place2]
            rw [if_pos hmem, if_pos hor, if_neg hcp]
          rw [he] at hplace
          injection hplace with h1 h2
          exact Option.noConfusion h2
        case pos =>
          have he : place2 orientations piece_idx s name (p0 :: tl) =
              ({ _place2 s (p0 :: tl) (piece_idx name) with
                  remaining_pieces := s.remaining_pieces.erase name }, none) := by
            simp only [place2]
            rw [if_pos hmem, if_pos hor, if_pos hcp]
          rw [he] at hplace
          injection hplace with h1 h2
          refine ⟨?_, (List.perm_append_singleton name _).trans
            (List.perm_cons_erase hmem).symm⟩
          subst h1
          set xy := p0 :: tl with hxydef
          set index := piece_idx name with hindexdef
          set s1 : Lonpos2DState :=
            { _place2 s xy index with
                remaining_pieces := s.remaining_pieces.erase name } with hs1def
          have hb1 : s1.board =
              setIdxs s.board (xy.map fun q => flatIdx2 s q.1 q.2) index := by
            show (_place2 s xy index).board = _
            exact _place2_board s xy index
          have hflat : flatIdx2 s1 = flatIdx2 s := rfl
          have hgrid : grid2 s1 = grid2 s := rfl
          have hlen1 : s1.board.length = s.board.length := by
            rw [hb1, setIdxs_length]
          -- the cells of the placed state
          have hcell : ∀ x y : ℤ, cell2 s1 x y =
              if flatIdx2 s x y ∈ (xy.map fun q => flatIdx2 s q.1 q.2) ∧
                  flatIdx2 s x y < s.board.length then index
              else s.board.getD (flatIdx2 s x y) 0 := by
            intro x y
            show s1.board.getD (flatIdx2 s1 x y) 0 = _
            rw [hflat, hb1, setIdxs_getD]
          -- cells holding the index are exactly the placed cells
          have hchar : ∀ q : ℤ × ℤ, q ∈ get_xy s1 index ↔
              q ∈ grid2 s ∧
              flatIdx2 s q.1 q.2 ∈ (xy.map fun w => flatIdx2 s w.1 w.2) := by
            intro q
            simp only [get_xy, List.mem_filter, hgrid, decide_eq_true_eq]
            constructor
            · rintro ⟨hq1, hq2⟩
              refine ⟨hq1, ?_⟩
              rw [hcell q.1 q.2] at hq2
              by_cases hc : flatIdx2 s q.1 q.2 ∈
                  (xy.map fun w => flatIdx2 s w.1 w.2) ∧
                  flatIdx2 s q.1 q.2 < s.board.length
              · exact hc.1
              · rw [if_neg hc] at hq2
                exfalso
                by_cases hlt : flatIdx2 s q.1 q.2 < s.board.length
                · have hmem2 : s.board.getD (flatIdx2 s q.1 q.2) 0 ∈ s.board := by
                    rw [List.getD_eq_getElem?_getD,
                      List.getElem?_eq_getElem hlt, Option.getD_some]
                    exact List.getElem_mem hlt
                  exact hnoton _ hmem2 hq2
                · rw [List.getD_eq_getElem?_getD,
                    List.getElem?_eq_none (by omega), Option.getD_none] at hq2
                  exact hidx hq2.symm
            · rintro ⟨hq1, hq2⟩
              refine ⟨hq1, ?_⟩
              obtain ⟨w, hw, hwe⟩ := List.mem_map.mp hq2
              have hwb := (can_place2_cells hcp w hw).1
              have hlt : flatIdx2 s q.1 q.2 < s.board.length := by
                rw [← hwe, hlen]
                exact flatIdx2_lt hwb
              rw [hcell q.1 q.2, if_pos ⟨hq2, hlt⟩]
          -- unplace finds a non-empty set of cells
          have hp0b := (can_place2_cells hcp p0 (List.mem_cons_self p0 tl)).1
          have hp0 : p0 ∈ get_xy s1 index := by
            rw [hchar]
            refine ⟨?_, List.mem_map_of_mem _ (List.mem_cons_self p0 tl)⟩
            rw [mem_grid2]
            rw [in_bounds2_iff] at hp0b
            exact hp0b
          have hne : get_xy s1 index ≠ [] := fun hc => by
            rw [hc] at hp0
            exact List.not_mem_nil p0 hp0
          -- the final board equals the original board
          have hfinal : (_place2 s1 (get_xy s1 index) 0).board = s.board := by
            rw [_place2_board]
            refine ext_getD ?_ fun j => ?_
            · rw [setIdxs_length, hlen1]
            · rw [hflat, setIdxs_getD, hlen1]
              by_cases hj : j ∈ ((get_xy s1 index).map fun q =>
                  flatIdx2 s q.1 q.2) ∧ j < s.board.length
              · obtain ⟨q, hq, hqe⟩ := List.mem_map.mp hj.1
                rw [hchar] at hq
                obtain ⟨w, hw, hwe⟩ := List.mem_map.mp hq.2
                have hz := (can_place2_cells hcp w hw).2
                rw [if_pos hj, ← hqe, ← hwe]
                exact hz.symm
              · rw [if_neg hj]
                by_cases hjl : j < s.board.length
                · have hnotin : ¬(j ∈ (xy.map fun q =>
                      flatIdx2 s q.1 q.2) ∧ j < s.board.length) := by
                    rintro ⟨hjin, -⟩
                    obtain ⟨w, hw, hwe⟩ := List.mem_map.mp hjin
                    have hwb := (can_place2_cells hcp w hw).1
                    have hwq : w ∈ get_xy s1 index := by
                      rw [hchar]
                      refine ⟨?_, hwe ▸ List.mem_map_of_mem _ hw⟩
                      rw [mem_grid2]
                      rw [in_bounds2_iff] at hwb
                      exact hwb
                    refine hj ⟨?_, hjl⟩
                    rw [← hwe]
                    exact List.mem_map_of_mem
                      (fun q => flatIdx2 s q.1 q.2) hwq
                  rw [hb1, setIdxs_getD, if_neg hnotin]
                · rw [hb1, setIdxs_getD, if_neg (fun hc => hjl hc.2)]
          -- assemble the unplace result
          show unplace2 piece_idx s1 [name] = _
          simp only [unplace2]
          rw [if_neg hne]
          refine Prod.ext ?_ rfl
          show ({ _place2 s1 (get_xy s1 index) 0 with
              remaining_pieces := s1.remaining_pieces ++ [name] } :
                Lonpos2DState) = _
          refine Lonpos2DState_ext rfl rfl ?_ rfl
          exact hfinal

/-- Counterexample to C4 as stated: with remaining pieces [A, B],
placing A and unplacing it restores the grid but leaves the ordered
remaining-pieces list as [B, A], not [A, B]. -/
theorem claim_C4_counterexample :
    place2 orientations2D piece_idx2D
      ⟨2, 4, [0, 0, 0, 0, 0, 0, 0, 0], ["A", "B"]⟩ "A"
      [(0, 0), (1, 0), (1, 1), (1, 2)] =
      (⟨2, 4, [1, 0, 0, 0, 1, 1, 1, 0], ["B"]⟩, none) ∧
    unplace2 piece_idx2D ⟨2, 4, [1, 0, 0, 0, 1, 1, 1, 0], ["B"]⟩ ["A"] =
      (⟨2, 4, [0, 0, 0, 0, 0, 0, 0, 0], ["B", "A"]⟩, none) ∧
    (["B", "A"] : List String) ≠ ["A", "B"] := by
  refine ⟨by decide, by decide, by decide⟩

/-- Witness for C4 (amended): a concrete place and unplace of piece A on
a 2 x 4 board, through the theorem itself. -/
theorem claim_C4_witness :
    unplace2 piece_idx2D ⟨2, 4, [1, 0, 0, 0, 1, 1, 1, 0], []⟩ ["A"] =
      (⟨2, 4, [0, 0, 0, 0, 0, 0, 0, 0], ["A"]⟩, none) :=
  (claim_C4_place_unplace_roundtrip orientations2D piece_idx2D
    ⟨2, 4, [0, 0, 0, 0, 0, 0, 0, 0], ["A"]⟩ "A"
    [(0, 0), (1, 0), (1, 1), (1, 2)] ⟨2, 4, [1, 0, 0, 0, 1, 1, 1, 0], []⟩
    (by decide) (by decide) (by decide) (by decide)).1

/-! ## What the search yields (claim C5) -/

/-- The area invariant of a search state: the number of empty cells
equals the total cell count of the remaining pieces. -/
def balance2 (size : Nat → Nat) (piece_idx : String → Nat)
    (s : Lonpos2DState) : Prop :=
  s.board.count 0 = (s.remaining_pieces.map fun n => size (piece_idx n)).sum

lemma add_shift_inj2 (p : ℤ × ℤ) :
    Function.Injective fun q : ℤ × ℤ => (q.1 + p.1, q.2 + p.2) := by
  intro a b h
  simp only [Prod.mk.injEq] at h
  exact Prod.ext (by omega) (by omega)

lemma placed_flats_ok {s : Lonpos2DState} {xy : List (ℤ × ℤ)}
    (hcp : can_place2 s xy = true) (hnd : xy.Nodup)
    (hlen : s.board.length = s.shape0 * s.shape1) :
    (xy.map fun q => flatIdx2 s q.1 q.2).Nodup ∧
    ∀ i ∈ xy.map fun q => flatIdx2 s q.1 q.2,
      i < s.board.length ∧ s.board.getD i 0 = 0 := by
  constructor
  · exact List.Nodup.map_on
      (fun x hx y hy hxy => flatIdx2_inj_on (can_place2_cells hcp x hx).1
        (can_place2_cells hcp y hy).1 hxy) hnd
  · intro i hi
    obtain ⟨q, hq, rfl⟩ := List.mem_map.mp hi
    refine ⟨?_, (can_place2_cells hcp q hq).2⟩
    rw [hlen]
    exact flatIdx2_lt (can_place2_cells hcp q hq).1

lemma orientLoop2_zeroes
    (sol : Lonpos2DState → Except String (List (List Nat) × Lonpos2DState))
    (size : Nat → Nat) (piece_idx : String → Nat) (index : Nat) (name : String)
    (hidx : index ≠ 0)
    (IHr : ∀ s ys s', sol s = .ok (ys, s') → sameBoard2 s s')
    (IHz : ∀ s ys s', s.board.length = s.shape0 * s.shape1 →
      balance2 size piece_idx s → sol s = .ok (ys, s') →
      ∀ g ∈ ys, g.count 0 = 0) :
    ∀ (orsL : List (List (ℤ × ℤ))) (pos : Option (ℤ × ℤ)) (s : Lonpos2DState)
      (ys : List (List Nat)) (s' : Lonpos2DState),
      (∀ xy0 ∈ orsL, xy0.length = size (piece_idx name) ∧ xy0.Nodup) →
      name ∈ s.remaining_pieces →
      s.board.length = s.shape0 * s.shape1 →
      balance2 size piece_idx s →
      orientLoop2 sol index name orsL pos s = .ok (ys, s') →
      ∀ g ∈ ys, g.count 0 = 0 := by
  intro orsL
  induction orsL with
  | nil =>
    intro pos s ys s' hsz hname hlen hbal hok
    simp only [orientLoop2] at hok
    injection hok with hok
    injection hok with hok1 hok2
    subst hok1
    intro g hg
    exact absurd hg (List.not_mem_nil g)
  | cons xy0 restOrs ih =>
    intro pos s ys s' hsz hname hlen hbal hok
    cases pos with
    | none =>
      simp only [orientLoop2] at hok
      exact Except.noConfusion hok
    | some p =>
      simp only [orientLoop2] at hok
      split at hok
      next hcp =>
        split at hok
        · exact Except.noConfusion hok
        next ys1 s2 hsol =>
          split at hok
          · exact Except.noConfusion hok
          next ys2 s4 horient =>
            injection hok with hok
            injection hok with hok1 hok2
            subst hok1
            subst hok2
            set xy : List (ℤ × ℤ) :=
              xy0.map fun q => (q.1 + p.1, q.2 + p.2) with hxydef
            set s1 : Lonpos2DState :=
              { _place2 s xy index with
                  remaining_pieces := s.remaining_pieces.erase name } with hs1def
            have hnd0 := (hsz xy0 (List.mem_cons_self xy0 restOrs)).2
            have hlen0 := (hsz xy0 (List.mem_cons_self xy0 restOrs)).1
            have hndxy : xy.Nodup := List.Nodup.map (add_shift_inj2 p) hnd0
            have hfl := placed_flats_ok hcp hndxy hlen
            have hb1 : s1.board =
                setIdxs s.board (xy.map fun q => flatIdx2 s q.1 q.2) index := by
              show (_place2 s xy index).board = _
              exact _place2_board s xy index
            have hcount1 : s1.board.count 0 =
                s.board.count 0 - xy.length := by
              rw [hb1, setIdxs_count _ _ _ hfl.1 (fun i hi => hfl.2 i hi) hidx,
                List.length_map]
            have hsum := List.sum_map_erase
              (fun n => size (piece_idx n)) hname
            have hlen1 : s1.board.length = s1.shape0 * s1.shape1 := by
              rw [hb1, setIdxs_length]
              exact hlen
            have hbal1 : balance2 size piece_idx s1 := by
              show s1.board.count 0 =
                ((s.remaining_pieces.erase name).map fun n =>
                  size (piece_idx n)).sum
              have hxylen : xy.length = size (piece_idx name) := by
                rw [hxydef, List.length_map]
                exact hlen0
              have hbal2 : s.board.count 0 =
                  (s.remaining_pieces.map fun n => size (piece_idx n)).sum :=
                hbal
              rw [hcount1, hxylen, hbal2, ← hsum, Nat.add_sub_cancel_left]
            have hys1 := IHz s1 ys1 s2 hlen1 hbal1 hsol
            have hS2 := IHr s1 ys1 s2 hsol
            have hshape0 : s2.shape0 = s.shape0 := hS2.1
            have hshape1 : s2.shape1 = s.shape1 := hS2.2.1
            set s3 : Lonpos2DState :=
              { _place2 s2 xy 0 with
                  remaining_pieces := s2.remaining_pieces ++ [name] } with hs3def
            have hb3 : s3.board = s.board := by
              show (_place2 s2 xy 0).board = s.board
              rw [_place2_board, flatIdx2_congr hshape1, hS2.2.2.1,
                board_update_rem, _place2_board]
              exact place_unplace_board2 index hcp
            have hrem3 : s3.remaining_pieces.Perm s.remaining_pieces := by
              show (s2.remaining_pieces ++ [name]).Perm s.remaining_pieces
              refine (List.perm_append_singleton name _).trans ?_
              exact (List.Perm.cons name hS2.2.2.2).trans
                (List.perm_cons_erase hname).symm
            have hlen3 : s3.board.length = s3.shape0 * s3.shape1 := by
              rw [hb3]
              show s.board.length = s2.shape0 * s2.shape1
              rw [hshape0, hshape1]
              exact hlen
            have hbal3 : balance2 size piece_idx s3 := by
              show s3.board.count 0 =
                (s3.remaining_pieces.map fun n => size (piece_idx n)).sum
              rw [hb3, (hrem3.map fun n => size (piece_idx n)).sum_eq]
              exact hbal
            have hname3 : name ∈ s3.remaining_pieces :=
              List.mem_append_right _ (List.mem_singleton_self name)
            have hys2 := ih (some p) s3 ys2 s4
              (fun o ho => hsz o (List.mem_cons_of_mem _ ho))
              hname3 hlen3 hbal3 horient
            intro g hg
            rcases List.mem_append.mp hg with hg1 | hg2
            · exact hys1 g hg1
            · exact hys2 g hg2
      next hcp =>
        exact ih (some p) s ys s' (fun o ho => hsz o (List.mem_cons_of_mem _ ho))
          hname hlen hbal hok

lemma nameLoop2_zeroes
    (sol : Lonpos2DState → Except String (List (List Nat) × Lonpos2DState))
    (orientations : Nat → List (List (ℤ × ℤ))) (piece_idx : String → Nat)
    (size : Nat → Nat)
    (hpidx : ∀ n, piece_idx n ≠ 0)
    (hsz : ∀ i, ∀ xy0 ∈ orientations i, xy0.length = size i ∧ xy0.Nodup)
    (IHr : ∀ s ys s', sol s = .ok (ys, s') → sameBoard2 s s')
    (IHz : ∀ s ys s', s.board.length = s.shape0 * s.shape1 →
      balance2 size piece_idx s → sol s = .ok (ys, s') →
      ∀ g ∈ ys, g.count 0 = 0) :
    ∀ (names : List String) (pos : Option (ℤ × ℤ)) (s : Lonpos2DState)
      (ys : List (List Nat)) (s' : Lonpos2DState),
      (∀ n ∈ names, n ∈ s.remaining_pieces) →
      s.board.length = s.shape0 * s.shape1 →
      balance2 size piece_idx s →
      nameLoop2 sol orientations piece_idx names pos s = .ok (ys, s') →
      ∀ g ∈ ys, g.count 0 = 0 := by
  intro names
  induction names with
  | nil =>
    intro pos s ys s' hsub hlen hbal hok
    simp only [nameLoop2] at hok
    injection hok with hok
    injection hok with hok1 hok2
    subst hok1
    intro g hg
    exact absurd hg (List.not_mem_nil g)
  | cons name rest ih =>
    intro pos s ys s' hsub hlen hbal hok
    simp only [nameLoop2] at hok
    split at hok
    · exact Except.noConfusion hok
    next ys1 s1 horient =>
      split at hok
      · exact Except.noConfusion hok
      next ys2 s2 hrest =>
        injection hok with hok
        injection hok with hok1 hok2
        subst hok1
        subst hok2
        have hys1 := orientLoop2_zeroes sol size piece_idx (piece_idx name)
          name (hpidx name) IHr IHz _ pos s ys1 s1
          (fun o ho => (hsz (piece_idx name) o ho))
          (hsub name (List.mem_cons_self name rest)) hlen hbal horient
        have hS1 := orientLoop2_restore sol (piece_idx name) IHr _ name pos s
          ys1 s1 (hsub name (List.mem_cons_self name rest)) horient
        have hsub1 : ∀ n ∈ rest, n ∈ s1.remaining_pieces := fun n hn =>
          hS1.2.2.2.mem_iff.mpr (hsub n (List.mem_cons_of_mem _ hn))
        have hlen1 : s1.board.length = s1.shape0 * s1.shape1 := by
          rw [hS1.2.2.1, hS1.1, hS1.2.1]
          exact hlen
        have hbal1 : balance2 size piece_idx s1 := by
          show s1.board.count 0 = _
          rw [hS1.2.2.1, (hS1.2.2.2.map fun n => size (piece_idx n)).sum_eq]
          exact hbal
        have hys2 := ih pos s1 ys2 s2 hsub1 hlen1 hbal1 hrest
        intro g hg
        rcases List.mem_append.mp hg with hg1 | hg2
        · exact hys1 g hg1
        · exact hys2 g hg2

lemma solutions2_zeroes (orientations : Nat → List (List (ℤ × ℤ)))
    (piece_idx : String → Nat) (size : Nat → Nat)
    (hpidx : ∀ n, piece_idx n ≠ 0)
    (hsz : ∀ i, ∀ xy0 ∈ orientations i, xy0.length = size i ∧ xy0.Nodup) :
    ∀ (fuel : Nat) (s : Lonpos2DState) (ys : List (List Nat))
      (s' : Lonpos2DState),
      s.board.length = s.shape0 * s.shape1 →
      balance2 size piece_idx s →
      solutions2 orientations piece_idx fuel s = .ok (ys, s') →
      ∀ g ∈ ys, g.count 0 = 0 := by
  intro fuel
  induction fuel with
  | zero =>
    intro s ys s' hlen hbal hok
    simp only [solutions2] at hok
    exact Except.noConfusion hok
  | succ fuel ih =>
    intro s ys s' hlen hbal hok
    simp only [solutions2] at hok
    by_cases hrem : s.remaining_pieces.isEmpty = true
    · rw [if_pos hrem] at hok
      injection hok with hok
      injection hok with hok1 hok2
      subst hok1
      intro g hg
      rcases List.mem_cons.mp hg with rfl | hg2
      · have hremnil : s.remaining_pieces = [] := List.isEmpty_iff.mp hrem
        have hb : s.board.count 0 =
            (s.remaining_pieces.map fun n => size (piece_idx n)).sum := hbal
        rw [hremnil] at hb
        simpa using hb
      · exact absurd hg2 (List.not_mem_nil g)
    · rw [if_neg hrem] at hok
      exact nameLoop2_zeroes (solutions2 orientations piece_idx fuel)
        orientations piece_idx size hpidx hsz
        (solutions2_restore orientations piece_idx fuel) ih
        _ _ s ys s' (fun n hn => hn) hlen hbal hok

def balance3 (size : Nat → Nat) (piece_idx : String → Nat)
    (s : Lonpos3DState) : Prop :=
  s.board.count 0 = (s.remaining_pieces.map fun n => size (piece_idx n)).sum

lemma mul_add_inj {a b c d m : Nat} (hb : b < m) (hd : d < m)
    (h : a * m + b = c * m + d) : a = c ∧ b = d := by
  have h1 : (a * m + b) % m = b := by
    rw [Nat.mul_comm, Nat.mul_add_mod]
    exact Nat.mod_eq_of_lt hb
  have h2 : (c * m + d) % m = d := by
    rw [Nat.mul_comm, Nat.mul_add_mod]
    exact Nat.mod_eq_of_lt hd
  have hbd : b = d := by rw [← h1, ← h2, h]
  have hac : a * m = c * m := by omega
  have hm : 0 < m := by omega
  exact ⟨Nat.eq_of_mul_eq_mul_right hm hac, hbd⟩

lemma in_bounds3_iff {s : Lonpos3DState} {x y z : ℤ} :
    in_bounds3 s x y z = true ↔
      0 ≤ x ∧ x < (s.shape0 : ℤ) ∧ 0 ≤ y ∧ y < (s.shape1 : ℤ) ∧
      0 ≤ z ∧ z < (s.shape2 : ℤ) := by
  simp [in_bounds3, and_assoc]

lemma flatIdx3_lt {s : Lonpos3DState} {p : ℤ × ℤ × ℤ}
    (hp : in_bounds3 s p.1 p.2.1 p.2.2 = true) :
    flatIdx3 s p.1 p.2.1 p.2.2 < s.shape0 * s.shape1 * s.shape2 := by
  rw [in_bounds3_iff] at hp
  have hx : p.1.toNat < s.shape0 := by omega
  have hy : p.2.1.toNat < s.shape1 := by omega
  have hz : p.2.2.toNat < s.shape2 := by omega
  exact flat_lt (flat_lt hx hy) hz

lemma flatIdx3_inj_on {s : Lonpos3DState} {p q : ℤ × ℤ × ℤ}
    (hp : in_bounds3 s p.1 p.2.1 p.2.2 = true)
    (hq : in_bounds3 s q.1 q.2.1 q.2.2 = true)
    (h : flatIdx3 s p.1 p.2.1 p.2.2 = flatIdx3 s q.1 q.2.1 q.2.2) : p = q := by
  rw [in_bounds3_iff] at hp hq
  simp only [flatIdx3] at h
  have hz1 : p.2.2.toNat < s.shape2 := by omega
  have hz2 : q.2.2.toNat < s.shape2 := by omega
  obtain ⟨hu, hz⟩ := mul_add_inj hz1 hz2 h
  have hy1 : p.2.1.toNat < s.shape1 := by omega
  have hy2 : q.2.1.toNat < s.shape1 := by omega
  obtain ⟨hx, hy⟩ := mul_add_inj hy1 hy2 hu
  refine Prod.ext (by omega) (Prod.ext (by omega) (by omega))

lemma add_shift_inj3 (p : ℤ × ℤ × ℤ) :
    Function.Injective fun q : ℤ × ℤ × ℤ =>
      (q.1 + p.1, q.2.1 + p.2.1, q.2.2 + p.2.2) := by
  intro a b h
  simp only [Prod.mk.injEq] at h
  refine Prod.ext (by omega) (Prod.ext (by omega) (by omega))

lemma placed_flats_ok3 {s : Lonpos3DState} {xyz : List (ℤ × ℤ × ℤ)}
    (hcp : can_place3 s xyz = true) (hnd : xyz.Nodup)
    (hlen : s.board.length = s.shape0 * s.shape1 * s.shape2) :
    (xyz.map fun q => flatIdx3 s q.1 q.2.1 q.2.2).Nodup ∧
    ∀ i ∈ xyz.map fun q => flatIdx3 s q.1 q.2.1 q.2.2,
      i < s.board.length ∧ s.board.getD i 0 = 0 := by
  constructor
  · exact List.Nodup.map_on
      (fun x hx y hy hxy => flatIdx3_inj_on (can_place3_cells hcp x hx).1
        (can_place3_cells hcp y hy).1 hxy) hnd
  · intro i hi
    obtain ⟨q, hq, rfl⟩ := List.mem_map.mp hi
    refine ⟨?_, (can_place3_cells hcp q hq).2⟩
    rw [hlen]
    exact flatIdx3_lt (can_place3_cells hcp q hq).1

lemma orientLoop3_zeroes
    (sol : Lonpos3DState → Except String (List (List Nat) × Lonpos3DState))
    (size : Nat → Nat) (piece_idx : String → Nat) (index : Nat) (name : String)
    (hidx : index ≠ 0)
    (IHr : ∀ s ys s', sol s = .ok (ys, s') → sameBoard3 s s')
    (IHz : ∀ s ys s', s.board.length = s.shape0 * s.shape1 * s.shape2 →
      balance3 size piece_idx s → sol s = .ok (ys, s') →
      ∀ g ∈ ys, g.count 0 = 0) :
    ∀ (orsL : List (List (ℤ × ℤ × ℤ))) (pos : Option (ℤ × ℤ × ℤ))
      (s : Lonpos3DState) (ys : List (List Nat)) (s' : Lonpos3DState),
      (∀ xyz0 ∈ orsL, xyz0.length = size (piece_idx name) ∧ xyz0.Nodup) →
      name ∈ s.remaining_pieces →
      s.board.length = s.shape0 * s.shape1 * s.shape2 →
      balance3 size piece_idx s →
      orientLoop3 sol index name orsL pos s = .ok (ys, s') →
      ∀ g ∈ ys, g.count 0 = 0 := by
  intro orsL
  induction orsL with
  | nil =>
    intro pos s ys s' hsz hname hlen hbal hok
    simp only [orientLoop3] at hok
    injection hok with hok
    injection hok with hok1 hok2
    subst hok1
    intro g hg
    exact absurd hg (List.not_mem_nil g)
  | cons xyz0 restOrs ih =>
    intro pos s ys s' hsz hname hlen hbal hok
    cases pos with
    | none =>
      simp only [orientLoop3] at hok
      exact Except.noConfusion hok
    | some p =>
      simp only [orientLoop3] at hok
      split at hok
      next hcp =>
        split at hok
        · exact Except.noConfusion hok
        next ys1 s2 hsol =>
          split at hok
          · exact Except.noConfusion hok
          next ys2 s4 horient =>
            injection hok with hok
            injection hok with hok1 hok2
            subst hok1
            subst hok2
            set xyz : List (ℤ × ℤ × ℤ) :=
              xyz0.map fun q => (q.1 + p.1, q.2.1 + p.2.1, q.2.2 + p.2.2)
              with hxyzdef
            set s1 : Lonpos3DState :=
              { _place3 s xyz index with
                  remaining_pieces := s.remaining_pieces.erase name } with hs1def
            have hnd0 := (hsz xyz0 (List.mem_cons_self xyz0 restOrs)).2
            have hlen0 := (hsz xyz0 (List.mem_cons_self xyz0 restOrs)).1
            have hndxyz : xyz.Nodup := List.Nodup.map (add_shift_inj3 p) hnd0
            have hfl := placed_flats_ok3 hcp hndxyz hlen
            have hb1 : s1.board =
                setIdxs s.board (xyz.map fun q => flatIdx3 s q.1 q.2.1 q.2.2)
                  index := by
              show (_place3 s xyz index).board = _
              exact _place3_board s xyz index
            have hcount1 : s1.board.count 0 =
                s.board.count 0 - xyz.length := by
              rw [hb1, setIdxs_count _ _ _ hfl.1 (fun i hi => hfl.2 i hi) hidx,
                List.length_map]
            have hsum := List.sum_map_erase
              (fun n => size (piece_idx n)) hname
            have hlen1 : s1.board.length = s1.shape0 * s1.shape1 * s1.shape2 := by
              rw [hb1, setIdxs_length]
              exact hlen
            have hbal1 : balance3 size piece_idx s1 := by
              show s1.board.count 0 =
                ((s.remaining_pieces.erase name).map fun n =>
                  size (piece_idx n)).sum
              have hxyzlen : xyz.length = size (piece_idx name) := by
                rw [hxyzdef, List.length_map]
                exact hlen0
              have hbal2 : s.board.count 0 =
                  (s.remaining_pieces.map fun n => size (piece_idx n)).sum :=
                hbal
              rw [hcount1, hxyzlen, hbal2, ← hsum, Nat.add_sub_cancel_left]
            have hys1 := IHz s1 ys1 s2 hlen1 hbal1 hsol
            have hS2 := IHr s1 ys1 s2 hsol
            have hshape0 : s2.shape0 = s.shape0 := hS2.1
            have hshape1 : s2.shape1 = s.shape1 := hS2.2.1
            have hshape2 : s2.shape2 = s.shape2 := hS2.2.2.1
            set s3 : Lonpos3DState :=
              { _place3 s2 xyz 0 with
                  remaining_pieces := s2.remaining_pieces ++ [name] } with hs3def
            have hb3 : s3.board = s.board := by
              show (_place3 s2 xyz 0).board = s.board
              rw [_place3_board, flatIdx3_congr hshape1 hshape2, hS2.2.2.2.1,
                board3_update_rem, _place3_board]
              exact place_unplace_board3 index hcp
            have hrem3 : s3.remaining_pieces.Perm s.remaining_pieces := by
              show (s2.remaining_pieces ++ [name]).Perm s.remaining_pieces
              refine (List.perm_append_singleton name _).trans ?_
              exact (List.Perm.cons name hS2.2.2.2.2).trans
                (List.perm_cons_erase hname).symm
            have hlen3 : s3.board.length = s3.shape0 * s3.shape1 * s3.shape2 := by
              rw [hb3]
              show s.board.length = s2.shape0 * s2.shape1 * s2.shape2
              rw [hshape0, hshape1, hshape2]
              exact hlen
            have hbal3 : balance3 size piece_idx s3 := by
              show s3.board.count 0 =
                (s3.remaining_pieces.map fun n => size (piece_idx n)).sum
              rw [hb3, (hrem3.map fun n => size (piece_idx n)).sum_eq]
              exact hbal
            have hname3 : name ∈ s3.remaining_pieces :=
              List.mem_append_right _ (List.mem_singleton_self name)
            have hys2 := ih (some p) s3 ys2 s4
              (fun o ho => hsz o (List.mem_cons_of_mem _ ho))
              hname3 hlen3 hbal3 horient
            intro g hg
            rcases List.mem_append.mp hg with hg1 | hg2
            · exact hys1 g hg1
            · exact hys2 g hg2
      next hcp =>
        exact ih (some p) s ys s' (fun o ho => hsz o (List.mem_cons_of_mem _ ho))
          hname hlen hbal hok

lemma nameLoop3_zeroes
    (sol : Lonpos3DState → Except String (List (List Nat) × Lonpos3DState))
    (orientations : Nat → List (List (ℤ × ℤ × ℤ))) (piece_idx : String → Nat)
    (size : Nat → Nat)
    (hpidx : ∀ n, piece_idx n ≠ 0)
    (hsz : ∀ i, ∀ xyz0 ∈ orientations i, xyz0.length = size i ∧ xyz0.Nodup)
    (IHr : ∀ s ys s', sol s = .ok (ys, s') → sameBoard3 s s')
    (IHz : ∀ s ys s', s.board.length = s.shape0 * s.shape1 * s.shape2 →
      balance3 size piece_idx s → sol s = .ok (ys, s') →
      ∀ g ∈ ys, g.count 0 = 0) :
    ∀ (names : List String) (pos : Option (ℤ × ℤ × ℤ)) (s : Lonpos3DState)
      (ys : List (List Nat)) (s' : Lonpos3DState),
      (∀ n ∈ names, n ∈ s.remaining_pieces) →
      s.board.length = s.shape0 * s.shape1 * s.shape2 →
      balance3 size piece_idx s →
      nameLoop3 sol orientations piece_idx names pos s = .ok (ys, s') →
      ∀ g ∈ ys, g.count 0 = 0 := by
  intro names
  induction names with
  | nil =>
    intro pos s ys s' hsub hlen hbal hok
    simp only [nameLoop3] at hok
    injection hok with hok
    injection hok with hok1 hok2
    subst hok1
    intro g hg
    exact absurd hg (List.not_mem_nil g)
  | cons name rest ih =>
    intro pos s ys s' hsub hlen hbal hok
    simp only [nameLoop3] at hok
    split at hok
    · exact Except.noConfusion hok
    next ys1 s1 horient =>
      split at hok
      · exact Except.noConfusion hok
      next ys2 s2 hrest =>
        injection hok with hok
        injection hok with hok1 hok2
        subst hok1
        subst hok2
        have hys1 := orientLoop3_zeroes sol size piece_idx (piece_idx name)
          name (hpidx name) IHr IHz _ pos s ys1 s1
          (fun o ho => (hsz (piece_idx name) o ho))
          (hsub name (List.mem_cons_self name rest)) hlen hbal horient
        have hS1 := orientLoop3_restore sol (piece_idx name) IHr _ name pos s
          ys1 s1 (hsub name (List.mem_cons_self name rest)) horient
        have hsub1 : ∀ n ∈ rest, n ∈ s1.remaining_pieces := fun n hn =>
          hS1.2.2.2.2.mem_iff.mpr (hsub n (List.mem_cons_of_mem _ hn))
        have hlen1 : s1.board.length = s1.shape0 * s1.shape1 * s1.shape2 := by
          rw [hS1.2.2.2.1, hS1.1, hS1.2.1, hS1.2.2.1]
          exact hlen
        have hbal1 : balance3 size piece_idx s1 := by
          show s1.board.count 0 = _
          rw [hS1.2.2.2.1, (hS1.2.2.2.2.map fun n => size (piece_idx n)).sum_eq]
          exact hbal
        have hys2 := ih pos s1 ys2 s2 hsub1 hlen1 hbal1 hrest
        intro g hg
        rcases List.mem_append.mp hg with hg1 | hg2
        · exact hys1 g hg1
        · exact hys2 g hg2

lemma solutions3_zeroes (orientations : Nat → List (List (ℤ × ℤ × ℤ)))
    (piece_idx : String → Nat) (size : Nat → Nat)
    (hpidx : ∀ n, piece_idx n ≠ 0)
    (hsz : ∀ i, ∀ xyz0 ∈ orientations i, xyz0.length = size i ∧ xyz0.Nodup) :
    ∀ (fuel : Nat) (s : Lonpos3DState) (ys : List (List Nat))
      (s' : Lonpos3DState),
      s.board.length = s.shape0 * s.shape1 * s.shape2 →
      balance3 size piece_idx s →
      solutions3 orientations piece_idx fuel s = .ok (ys, s') →
      ∀ g ∈ ys, g.count 0 = 0 := by
  intro fuel
  induction fuel with
  | zero =>
    intro s ys s' hlen hbal hok
    simp only [solutions3] at hok
    exact Except.noConfusion hok
  | succ fuel ih =>
    intro s ys s' hlen hbal hok
    simp only [solutions3] at hok
    by_cases hrem : s.remaining_pieces.isEmpty = true
    · rw [if_pos hrem] at hok
      injection hok with hok
      injection hok with hok1 hok2
      subst hok1
      intro g hg
      rcases List.mem_cons.mp hg with rfl | hg2
      · have hremnil : s.remaining_pieces = [] := List.isEmpty_iff.mp hrem
        have hb : s.board.count 0 =
            (s.remaining_pieces.map fun n => size (piece_idx n)).sum := hbal
        rw [hremnil] at hb
        simpa using hb
      · exact absurd hg2 (List.not_mem_nil g)
    · rw [if_neg hrem] at hok
      exact nameLoop3_zeroes (solutions3 orientations piece_idx fuel)
        orientations piece_idx size hpidx hsz
        (solutions3_restore orientations piece_idx fuel) ih
        _ _ s ys s' (fun n hn => hn) hlen hbal hok

/-- C5. Corrected form. The spec claims every grid yielded by the solutions
generator satisfies completed() for the yielded snapshot. This is false for
arbitrary starting states: a state whose remaining pieces cannot account for
the empty area (for example, remaining empty while empty cells exist, which
set_board produces for a grid pre-occupied by every catalog index but still
holding empty cells) is yielded without being completed. The amended claim
adds an area-balance hypothesis, which every freshly initialized board
satisfies: if every piece index is nonzero, every orientation of piece i has
size i cells with no duplicates, the flat board has the declared extent, and
the number of empty cells equals the total cell count of the remaining
pieces, then every grid yielded by solutions (2D and 3D alike) has no empty
cell left, so the yielded snapshot with its empty remaining-pieces list
satisfies completed(). -/
theorem claim_C5_yields_completed :
    (∀ (orientations : Nat → List (List (ℤ × ℤ))) (piece_idx : String → Nat)
      (size : Nat → Nat) (fuel : Nat) (s : Lonpos2DState)
      (ys : List (List Nat)) (s2 : Lonpos2DState),
      (∀ n, piece_idx n ≠ 0) →
      (∀ i, ∀ xy0 ∈ orientations i, xy0.length = size i ∧ xy0.Nodup) →
      s.board.length = s.shape0 * s.shape1 →
      s.board.count 0 = (s.remaining_pieces.map fun n =>
        size (piece_idx n)).sum →
      solutions2 orientations piece_idx fuel s = .ok (ys, s2) →
      ∀ g ∈ ys, completed2 ⟨s.shape0, s.shape1, g, []⟩ = true) ∧
    (∀ (orientations : Nat → List (List (ℤ × ℤ × ℤ))) (piece_idx : String → Nat)
      (size : Nat → Nat) (fuel : Nat) (s : Lonpos3DState)
      (ys : List (List Nat)) (s2 : Lonpos3DState),
      (∀ n, piece_idx n ≠ 0) →
      (∀ i, ∀ xyz0 ∈ orientations i, xyz0.length = size i ∧ xyz0.Nodup) →
      s.board.length = s.shape0 * s.shape1 * s.shape2 →
      s.board.count 0 = (s.remaining_pieces.map fun n =>
        size (piece_idx n)).sum →
      solutions3 orientations piece_idx fuel s = .ok (ys, s2) →
      ∀ g ∈ ys, completed3 ⟨s.shape0, s.shape1, s.shape2, g, []⟩ = true) := by
  constructor
  · intro orientations piece_idx size fuel s ys s2 hpidx hsz hlen hbal hok g hg
    have hz := solutions2_zeroes orientations piece_idx size hpidx hsz fuel
      s ys s2 hlen hbal hok g hg
    have hnz : ∀ v ∈ g, v ≠ 0 := by
      intro v hv hv0
      subst hv0
      exact (List.count_eq_zero.mp hz) hv
    simp only [completed2, List.isEmpty_nil, Bool.true_and, List.all_eq_true,
      decide_eq_true_eq]
    exact fun v hv => hnz v hv
  · intro orientations piece_idx size fuel s ys s2 hpidx hsz hlen hbal hok g hg
    have hz := solutions3_zeroes orientations piece_idx size hpidx hsz fuel
      s ys s2 hlen hbal hok g hg
    have hnz : ∀ v ∈ g, v ≠ 0 := by
      intro v hv hv0
      subst hv0
      exact (List.count_eq_zero.mp hz) hv
    simp only [completed3, List.isEmpty_nil, Bool.true_and, List.all_eq_true,
      decide_eq_true_eq]
    exact fun v hv => hnz v hv

/-- C5 counterexample to the literal claim. The 13 x 1 board
[1, 2, ..., 12, 0] holds every catalog piece index, so set_board leaves
remaining_pieces empty, yet one cell is still empty. The generator
immediately yields this grid, but completed() on the yielded snapshot is
false because of the empty cell, refuting "every grid yielded by the
solutions generator is a solution ... (equivalently, completed() holds for
the yielded snapshot)" for arbitrary starting states. -/
theorem claim_C5_counterexample :
    solutions2 orientations2D piece_idx2D 1
      ⟨13, 1, [1, 2, 3, 4, 5, 6, 7, 8, 9, 10, 11, 12, 0], []⟩ =
      .ok ([[1, 2, 3, 4, 5, 6, 7, 8, 9, 10, 11, 12, 0]],
        ⟨13, 1, [1, 2, 3, 4, 5, 6, 7, 8, 9, 10, 11, 12, 0], []⟩) ∧
    completed2 ⟨13, 1, [1, 2, 3, 4, 5, 6, 7, 8, 9, 10, 11, 12, 0], []⟩ =
      false := by
  constructor
  · rfl
  · decide

/-- C5 witness: the amended theorem applied to a 2 x 2 board with one
blocked cell and the single 3-cell piece F remaining; the unique yielded
grid [1, 1, 1, 255] is completed. -/
theorem claim_C5_witness :
    completed2 ⟨2, 2, [1, 1, 1, 255], []⟩ = true :=
  (claim_C5_yields_completed.1
    (fun _ => all_2d_rotations_and_translations [(0, 0), (1, 0), (1, 1)])
    (fun _ => 1) (fun _ => 3) 2 ⟨2, 2, [0, 0, 0, 255], ["F"]⟩
    [[1, 1, 1, 255]] ⟨2, 2, [0, 0, 0, 255], ["F"]⟩
    (fun n => (by decide : (1 : Nat) ≠ 0))
    (fun i => (by decide :
      ∀ xy0 ∈ all_2d_rotations_and_translations [(0, 0), (1, 0), (1, 1)],
        xy0.length = 3 ∧ xy0.Nodup))
    (by decide) (by decide)
    (by decide)) [1, 1, 1, 255] (by decide)
